import Mathlib

/-!
Verification of the streaming compute core of the `live-data` trading engine.

This file shallowly embeds the Python source into Lean and proves or refutes
the stated properties of:
  * the candle aggregator       (`dataflow/candle_aggregation/aggregator.py`)
  * the DAG builder             (`engine/dag/builder.py`)
  * the DAG executor            (`engine/scheduler/executor.py`)
  * the configuration loader    (`engine/config/loader.py`)
  * the market-data schemas     (`schemas/market_data.py`)
  * the candle-science filter node
    (`indicators/candle_science_filter_settings/node.py` and
     `dataflow/indicators/candle_science_filter_settings/filters.py`)

Conventions of the embedding:
  * Python `dict`s are association lists (`List (κ × α)`) with Python's
    update-in-place / append-at-end insertion semantics (`ainsert`).
    Python `set`s used only through membership are association-free lists
    with de-duplicating insertion.
  * Python numbers (prices, volumes) are `ℚ`; `datetime` instants in the
    aggregator are epoch seconds in `ℚ` (the aggregator only ever uses
    `timestamp()` / `fromtimestamp` arithmetic on them).  The serialization
    section models `datetime` by its calendar fields, because there the code
    only uses `isoformat` / `fromisoformat`.
  * Raising Python code is `Except String`; a raised exception is `.error`
    with the formatted message.
-/

set_option maxRecDepth 4096

/-- Association-list lookup: Python `d.get(k)` / `d[k]`. -/
def alookup {κ α : Type} [DecidableEq κ] : List (κ × α) → κ → Option α
  | [], _ => none
  | (k2, v) :: rest, k => if k2 = k then some v else alookup rest k

/-- Association-list insert with Python `dict` semantics: an existing key keeps
its position and gets the new value, a new key is appended at the end. -/
def ainsert {κ α : Type} [DecidableEq κ] : List (κ × α) → κ → α → List (κ × α)
  | [], k, v => [(k, v)]
  | (k2, v2) :: rest, k, v =>
      if k2 = k then (k2, v) :: rest else (k2, v2) :: ainsert rest k v

theorem alookup_ainsert {κ α : Type} [DecidableEq κ]
    (l : List (κ × α)) (k k2 : κ) (v : α) :
    alookup (ainsert l k v) k2 = if k = k2 then some v else alookup l k2 := by
  induction l with
  | nil => simp [ainsert, alookup]
  | cons hd tl ih =>
      obtain ⟨hk, hv⟩ := hd
      by_cases h1 : hk = k
      · subst h1
        by_cases h2 : hk = k2 <;> simp [ainsert, alookup, h2]
      · by_cases h2 : hk = k2
        · subst h2
          have h3 : ¬(k = hk) := fun h => h1 h.symm
          simp [ainsert, alookup, h1, h3]
        · simp [ainsert, alookup, h1, h2, ih]

theorem ainsert_ne_nil {κ α : Type} [DecidableEq κ]
    (l : List (κ × α)) (k : κ) (v : α) : ainsert l k v ≠ [] := by
  cases l with
  | nil => simp [ainsert]
  | cons hd tl =>
      obtain ⟨hk, hv⟩ := hd
      by_cases h : hk = k <;> simp [ainsert, h]

/-- A Python/YAML/JSON value: `None`, a number (Python compares `int`,
`float` and `bool` numerically under `==`, so they share one constructor),
a string, a list, or a string-keyed dict. -/
inductive PyVal where
  | nullV
  | num (q : ℚ)
  | str (s : String)
  | arr (xs : List PyVal)
  | obj (kvs : List (String × PyVal))

mutual

/-- Python `==` on values: numbers numerically, lists elementwise, dicts as
unordered key→value maps (an `obj`'s keys are unique, as YAML/JSON give). -/
def pyEqV : PyVal → PyVal → Bool
  | .nullV, .nullV => true
  | .num a, .num b => a == b
  | .str a, .str b => a == b
  | .arr xs, .arr ys => pyEqList xs ys
  | .obj a, .obj b =>
      pyEqFwd a b && b.all (fun kv => (alookup a kv.1).isSome)
  | _, _ => false

/-- Python `==` on lists of values, elementwise. -/
def pyEqList : List PyVal → List PyVal → Bool
  | [], [] => true
  | x :: xs, y :: ys => pyEqV x y && pyEqList xs ys
  | _, _ => false

/-- Every key of the first dict maps to an equal value in the second. -/
def pyEqFwd : List (String × PyVal) → List (String × PyVal) → Bool
  | [], _ => true
  | (k, v) :: rest, b =>
      (match alookup b k with
       | some v2 => pyEqV v v2
       | none => false) && pyEqFwd rest b

end

/-- Python `==` on two string-keyed dicts. -/
def pyEqDict (a b : List (String × PyVal)) : Bool :=
  pyEqFwd a b && b.all (fun kv => (alookup a kv.1).isSome)

namespace CandleAgg

/-- `schemas/market_data.py` `Tick` (instants as epoch seconds). -/
structure Tick where
  symbol : String
  timestamp : ℚ
  price : ℚ
  volume : Option ℚ := none
  bid : Option ℚ := none
  ask : Option ℚ := none
deriving DecidableEq, Repr

/-- `schemas/market_data.py` `Candle` (instants as epoch seconds). -/
structure Candle where
  symbol : String
  timestamp : ℚ
  timeframe : String
  open_ : ℚ
  high : ℚ
  low : ℚ
  close : ℚ
  volume : ℚ := 0
  tick_count : Int := 0
deriving DecidableEq, Repr

/-- The module-level `TIMEFRAMES` dict of `aggregator.py`; lookup of an
unknown tag is a Python `KeyError`. -/
def TIMEFRAMES : List (String × Int) :=
  [("1m", 60), ("5m", 300), ("15m", 900), ("30m", 1800),
   ("1h", 3600), ("4h", 14400), ("1d", 86400)]

/-- `CandleBuilder.__init__`: OHLC start out as `None`. -/
structure CandleBuilder where
  symbol : String
  timeframe : String
  start_time : ℚ
  open_ : Option ℚ := none
  high : Option ℚ := none
  low : Option ℚ := none
  close : Option ℚ := none
  volume : ℚ := 0
  tick_count : Int := 0
deriving DecidableEq, Repr

def newBuilder (symbol timeframe : String) (start_time : ℚ) : CandleBuilder :=
  { symbol := symbol, timeframe := timeframe, start_time := start_time }

/-- `CandleBuilder.add_tick`.  After the `if self.open is None` branch the
`high`/`low` fields are always set whenever `open` is (every constructor and
mutation of the class keeps them in lock-step), so the `getD price` defaults
below are never exercised on reachable builders. -/
def CandleBuilder.add_tick (b : CandleBuilder) (t : Tick) : CandleBuilder :=
  let price := t.price
  let volume := t.volume.getD 0
  let b1 := if b.open_ = none then
    { b with open_ := some price, high := some price, low := some price } else b
  { b1 with
    high := some (max (b1.high.getD price) price),
    low := some (min (b1.low.getD price) price),
    close := some price,
    volume := b1.volume + volume,
    tick_count := b1.tick_count + 1 }

/-- `CandleBuilder.is_empty`. -/
def CandleBuilder.is_empty (b : CandleBuilder) : Bool := b.open_ = none

/-- `CandleBuilder.build`.  As in `add_tick`, on every reachable non-empty
builder all four OHLC fields are set, so the `getD o` defaults never fire. -/
def CandleBuilder.build (b : CandleBuilder) : Except String Candle :=
  match b.open_ with
  | none => .error "Cannot build empty candle"
  | some o =>
      .ok { symbol := b.symbol, timestamp := b.start_time, timeframe := b.timeframe,
            open_ := o, high := b.high.getD o, low := b.low.getD o,
            close := b.close.getD o, volume := b.volume, tick_count := b.tick_count }

/-- The in-progress builder table `{symbol: {timeframe: CandleBuilder}}`,
flattened to a `(symbol, timeframe)`-keyed dict (it is a `defaultdict`, so
the two-level structure is observationally a map on pairs). -/
abbrev Builders := List ((String × String) × CandleBuilder)

/-- `CandleAggregator._get_candle_start`: `(epoch // seconds) * seconds`,
with `datetime.fromtimestamp` the identity on our epoch-second instants. -/
def getCandleStart (timestamp : ℚ) (seconds : Int) : ℚ :=
  (⌊timestamp / (seconds : ℚ)⌋ : ℚ) * (seconds : ℚ)

/-- `CandleAggregator._get_or_create_builder`.
Returns the (builders, builder, is_new) triple; note that when the aligned
start differs from the stored builder's start the stored builder is simply
overwritten and the old builder object is returned to no one. -/
def getOrCreateBuilder (bs : Builders) (symbol timeframe : String)
    (timestamp : ℚ) : Except String (Builders × CandleBuilder × Bool) := do
  let seconds ← match alookup TIMEFRAMES timeframe with
    | some s => Except.ok s
    | none => Except.error ("KeyError: " ++ timeframe)
  let candle_start := getCandleStart timestamp seconds
  match alookup bs (symbol, timeframe) with
  | none =>
      let b := newBuilder symbol timeframe candle_start
      .ok (ainsert bs (symbol, timeframe) b, b, true)
  | some existing =>
      if existing.start_time ≠ candle_start then
        let b := newBuilder symbol timeframe candle_start
        .ok (ainsert bs (symbol, timeframe) b, b, true)
      else
        .ok (bs, existing, false)

/-- `CandleAggregator._handle_tick` (the part under the lock).  The Python
body after `_get_or_create_builder` is

    if is_new and not builder.is_empty():
        # This shouldn't happen, but safety check
        pass
    builder.add_tick(tick)

— the `if` tests the freshly created (hence empty) builder and its body is
`pass`, so the handler publishes nothing: its only effect is the builder
update. -/
def handleTick (timeframes : List String) (bs : Builders) (tick : Tick) :
    Except String Builders :=
  timeframes.foldlM (fun bs timeframe => do
    let (bs2, builder, _is_new) ←
      getOrCreateBuilder bs tick.symbol timeframe tick.timestamp
    -- `if is_new and not builder.is_empty(): pass`  (no effect)
    .ok (ainsert bs2 (tick.symbol, timeframe) (builder.add_tick tick))) bs

/-- One wake-up of `CandleAggregator._check_and_publish_candles`: scan a
snapshot of the builder table, finalize every non-empty builder whose period
has ended, replace it with a builder anchored at `now`'s alignment, and
collect the finalized candles (published after the lock is released). -/
def sweepStep (bs : Builders) (now : ℚ) : Except String (Builders × List Candle) :=
  bs.foldlM (fun (acc : Builders × List Candle) entry => do
    let ((symbol, timeframe), builder) := entry
    if builder.is_empty then
      .ok acc
    else do
      let seconds ← match alookup TIMEFRAMES timeframe with
        | some s => Except.ok s
        | none => Except.error ("KeyError: " ++ timeframe)
      let candle_end := builder.start_time + (seconds : ℚ)
      if now ≥ candle_end then do
        let candle ← builder.build
        let new_start := getCandleStart now seconds
        .ok (ainsert acc.1 (symbol, timeframe) (newBuilder symbol timeframe new_start),
             acc.2 ++ [candle])
      else
        .ok acc) (bs, [])

/-- An input to the aggregator loop: either a delivered tick message or one
wake-up of the 1 Hz sweep task at wall-clock instant `now`. -/
inductive AggEvent where
  | tick (t : Tick)
  | sweep (now : ℚ)
deriving Repr

/-- One aggregator step, returning the new builder table and the candles the
step publishes.  The tick path publishes nothing (see `handleTick`). -/
def aggStep (timeframes : List String) (bs : Builders) :
    AggEvent → Except String (Builders × List Candle)
  | .tick t => do
      let bs2 ← handleTick timeframes bs t
      .ok (bs2, [])
  | .sweep now => sweepStep bs now

/-- Run the aggregator over a sequence of events, concatenating everything
published. -/
def aggRun (timeframes : List String) (bs : Builders) :
    List AggEvent → Except String (Builders × List Candle)
  | [] => .ok (bs, [])
  | e :: es => do
      let (bs2, out) ← aggStep timeframes bs e
      let (bs3, out2) ← aggRun timeframes bs2 es
      .ok (bs3, out ++ out2)

/-! Concrete scenario inputs (spec §8, seed test 1: width 60 s, ticks at
10:00:05, 10:00:30, 10:00:59, 10:01:05 — epoch seconds 36005, 36030, 36059,
36065). -/

def tk1 : Tick := { symbol := "ES", timestamp := 36005, price := 100, volume := some 1 }

def tk2 : Tick := { symbol := "ES", timestamp := 36030, price := 101, volume := some 2 }

def tk3 : Tick := { symbol := "ES", timestamp := 36059, price := 99, volume := some 1 }

def tk4 : Tick := { symbol := "ES", timestamp := 36065, price := 102, volume := some 1 }

/-- Builder states reached while processing the scenario ticks. -/
def b1 : CandleBuilder :=
  { symbol := "ES", timeframe := "1m", start_time := 36000, open_ := some 100,
    high := some 100, low := some 100, close := some 100, volume := 1, tick_count := 1 }

def b2 : CandleBuilder :=
  { b1 with high := some 101, close := some 101, volume := 3, tick_count := 2 }

def b3 : CandleBuilder :=
  { b2 with low := some 99, close := some 99, volume := 4, tick_count := 3 }

def b4 : CandleBuilder :=
  { symbol := "ES", timeframe := "1m", start_time := 36060, open_ := some 102,
    high := some 102, low := some 102, close := some 102, volume := 1, tick_count := 1 }

/-- Second scenario: a tick in the 10:00 interval, a tick in the 10:01
interval, then one sweep wake-up at 10:02:30. -/
def tkB : Tick := { symbol := "ES", timestamp := 36065, price := 101, volume := some 1 }

def bB : CandleBuilder :=
  { symbol := "ES", timeframe := "1m", start_time := 36060, open_ := some 101,
    high := some 101, low := some 101, close := some 101, volume := 1, tick_count := 1 }

end CandleAgg

namespace Dag

/-- `engine/dag/node.py` `InputType`. -/
inductive InputType where
  | tick
  | candle
  | indicator
deriving DecidableEq, Repr

/-- `InputType.value` (the Python enum's string value). -/
def InputType.value : InputType → String
  | .tick => "tick"
  | .candle => "candle"
  | .indicator => "indicator"

/-- `engine/dag/node.py` `InputRef`. -/
structure InputRef where
  type : InputType
  source : String
  field : Option String := none
deriving DecidableEq, Repr

/-- `engine/dag/node.py` `NodeDef`.  `params` is a string-keyed dict of
YAML values; the builder and executor carry it opaquely. -/
structure NodeDef where
  id : String
  type : String
  inputs : List InputRef
  params : List (String × PyVal) := []
  outputs : List String := ["value"]

/-- `DAGBuilder.__init__`: `self.nodes = {n.id: n for n in node_defs}`. -/
def mkNodes (node_defs : List NodeDef) : List (String × NodeDef) :=
  node_defs.foldl (fun m n => ainsert m n.id n) []

/-- The dependency-collection loop of `DAGBuilder._build_adjacency` for one
node: its INDICATOR input sources in order (an unknown source raises). -/
def nodeDeps (nodes : List (String × NodeDef)) (node_id : String) (node : NodeDef) :
    Except String (List String) :=
  node.inputs.foldlM (fun deps inp =>
    match inp.type with
    | .indicator =>
        if (alookup nodes inp.source).isNone then
          Except.error
            ("Node '" ++ node_id ++ "' depends on unknown indicator: '" ++ inp.source ++ "'")
        else
          Except.ok (deps ++ [inp.source])
    | _ => Except.ok deps) []

/-- `DAGBuilder._build_adjacency`: for each node, its INDICATOR input
sources; `reverse_deps` collects dependents (a Python `set`, modeled as a
de-duplicating list). -/
def buildAdjacencyStep (nodes : List (String × NodeDef))
    (acc : List (String × List String) × List (String × List String))
    (entry : String × NodeDef) :
    Except String (List (String × List String) × List (String × List String)) := do
  let node_id := entry.1
  let node := entry.2
  let deps ← nodeDeps nodes node_id node
  let adjacency := ainsert acc.1 node_id deps
  let reverse_deps := deps.foldl (fun rd dep =>
    let s := (alookup rd dep).getD []
    ainsert rd dep (if node_id ∈ s then s else s ++ [node_id])) acc.2
  Except.ok (adjacency, reverse_deps)

def buildAdjacency (nodes : List (String × NodeDef)) :
    Except String (List (String × List String) × List (String × List String)) :=
  nodes.foldlM (buildAdjacencyStep nodes) ([], [])

/-- `adjacency.get(node_id, [])`. -/
def depsGetD (adjacency : List (String × List String)) (node_id : String) : List String :=
  (alookup adjacency node_id).getD []

/-- The recursive `dfs` of `DAGBuilder._validate_no_cycles`, fuel-indexed
(each recursive call is on a not-yet-visited node, so a fuel of
|nodes| + 1 at the top never runs out; proved below).  `visited` and the
recursion stack are Python sets used through membership; `path` is the
copied list.  In the source `path == rec_stack` as node sequences: both
receive exactly the nodes of the active call chain in order.  The traversal
returns the updated `visited`; the recursion stack is restored on return,
so it is passed down only.  On a gray hit the raised message is
`"Cycle detected in DAG: " + " -> ".join(path[path.index(dep):] + [dep])`. -/
def dfs (adjacency : List (String × List String)) :
    Nat → String → List String → List String → List String → Except String (List String)
  | 0, _, _, _, _ => .error "fuel exhausted"
  | fuel + 1, node_id, path, visited, rec_stack =>
      let visited := if node_id ∈ visited then visited else visited ++ [node_id]
      let rec_stack := rec_stack ++ [node_id]
      let path := path ++ [node_id]
      (depsGetD adjacency node_id).foldlM (fun visited dep =>
        if dep ∉ visited then
          dfs adjacency fuel dep path visited rec_stack
        else if dep ∈ rec_stack then
          let cycle := path.drop (path.indexOf dep) ++ [dep]
          .error ("Cycle detected in DAG: " ++ String.intercalate " -> " cycle)
        else
          .ok visited) visited

/-- `DAGBuilder._validate_no_cycles`: run `dfs` from every unvisited node. -/
def validateNoCycles (nodes : List (String × NodeDef))
    (adjacency : List (String × List String)) : Except String Unit := do
  let _ ← nodes.foldlM (fun visited entry =>
    if entry.1 ∉ visited then dfs adjacency (nodes.length + 1) entry.1 [] visited []
    else .ok visited) ([] : List String)
  .ok ()

/-- The `while queue:` loop of `DAGBuilder._compute_topo_order`, fuel-indexed
(iterations are bounded by |nodes| + total edge count: a node enters the
queue at most once at in-degree 0 plus once per decrement to exactly 0). -/
def kahnLoop (adjacency : List (String × List String)) :
    Nat → List (String × Int) → List String → List String → List String
  | 0, _, _, topo_order => topo_order
  | fuel + 1, in_degree, queue, topo_order =>
      match queue with
      | [] => topo_order
      | node_id :: queue =>
          let topo_order := topo_order ++ [node_id]
          let step := (depsGetD adjacency node_id).foldl
            (fun (acc : List (String × Int) × List String) neighbor =>
              let d := (alookup acc.1 neighbor).getD 0 - 1
              let in_degree := ainsert acc.1 neighbor d
              if d = 0 then (in_degree, acc.2 ++ [neighbor]) else (in_degree, acc.2))
            (in_degree, queue)
          kahnLoop adjacency fuel step.1 step.2 topo_order

/-- `DAGBuilder._compute_topo_order`.  NOTE the faithful translation of the
in-degree computation: the source iterates over each node's DEPENDENCY list
and increments `in_degree[dep]` for each dependency `dep` — that counts
dependents, not dependencies — and then walks `adjacency[node]` (the
dependency list) as the "neighbors" to decrement.  The final coverage check
renders the unprocessed ids joined by `", "` (Python formats a `set` whose
rendering order is unspecified; no claim depends on that rendering). -/
def computeTopoOrder (nodes : List (String × NodeDef))
    (adjacency : List (String × List String)) : Except String (List String) :=
  let in_degree := nodes.foldl (fun d entry => ainsert d entry.1 (0 : Int)) []
  let in_degree := adjacency.foldl (fun d entry =>
    entry.2.foldl (fun d dep => ainsert d dep ((alookup d dep).getD 0 + 1)) d) in_degree
  let queue := (nodes.filter (fun e => alookup in_degree e.1 = some 0)).map (fun e => e.1)
  let fuel := nodes.length + adjacency.foldl (fun n e => n + e.2.length) 0 + 1
  let topo_order := kahnLoop adjacency fuel in_degree queue []
  if topo_order.length ≠ nodes.length then
    .error ("Topological sort failed - DAG contains cycle. Unreachable nodes: " ++
      String.intercalate ", " ((nodes.map (fun e => e.1)).filter (fun k => k ∉ topo_order)))
  else
    .ok topo_order

/-- The fields of a built `DAGBuilder`. -/
structure DAGState where
  nodes : List (String × NodeDef)
  adjacency : List (String × List String)
  reverse_deps : List (String × List String)
  topo_order : List String

/-- `DAGBuilder.build`. -/
def build (node_defs : List NodeDef) : Except String DAGState := do
  let nodes := mkNodes node_defs
  let (adjacency, reverse_deps) ← buildAdjacency nodes
  validateNoCycles nodes adjacency
  let topo_order ← computeTopoOrder nodes adjacency
  .ok { nodes := nodes, adjacency := adjacency, reverse_deps := reverse_deps,
        topo_order := topo_order }

/-- The dependency edge `u → v` ("u depends on v") induced by the node
definitions: `u`'s definition has an INDICATOR input whose source is `v`. -/
def dependsOn (nodes : List (String × NodeDef)) (u v : String) : Prop :=
  ∃ nd, alookup nodes u = some nd ∧
    ∃ inp ∈ nd.inputs, inp.type = .indicator ∧ inp.source = v

/-- A chain of consecutive `G`-edges. -/
def isChain (G : String → String → Prop) : List String → Prop
  | [] => True
  | [_] => True
  | a :: b :: rest => G a b ∧ isChain G (b :: rest)

/-- A cycle: a chain of length ≥ 2 whose first and last entries coincide
(a self-loop on `a` is `[a, a]`; `a → b → a` is `[a, b, a]`). -/
def isCycleList (G : String → String → Prop) (l : List String) : Prop :=
  2 ≤ l.length ∧ isChain G l ∧ l.head? = l.getLast?

/-- The node-level dependency edge as stored in `adjacency`:
`u → v` when `v` occurs in `adjacency.get(u, [])`. -/
def adjEdge (adjacency : List (String × List String)) (u v : String) : Prop :=
  v ∈ depsGetD adjacency u

/-- The INDICATOR input sources of a node definition, in input order —
exactly what `_build_adjacency` collects for it when every source resolves. -/
def indicatorSources (nd : NodeDef) : List String :=
  (nd.inputs.filter (fun inp => decide (inp.type = InputType.indicator))).map
    (fun inp => inp.source)

/-- A finish order for the DFS: every dependency of a listed node is listed
strictly earlier. -/
def GoodOrder (adjacency : List (String × List String)) (f : List String) : Prop :=
  ∀ u ∈ f, ∀ v ∈ depsGetD adjacency u, v ∈ f ∧ f.indexOf v < f.indexOf u

/-- The error message raised on a gray hit: the arrow-joined rendering of an
actual cycle of the adjacency. -/
def cycleError (adjacency : List (String × List String)) (msg : String) : Prop :=
  ∃ c, isCycleList (adjEdge adjacency) c ∧
    msg = "Cycle detected in DAG: " ++ String.intercalate " -> " c

/-- The docstring example of `builder.py` (lines 26-36): `ema_20` consumes a
candle, `strategy` depends on `ema_20`; the docstring promises
`topo_order == ["ema_20", "strategy"]`. -/
def c1Defs : List NodeDef :=
  [ { id := "ema_20", type := "EMA",
      inputs := [{ type := .candle, source := "5m" }], outputs := ["value"] },
    { id := "strategy", type := "Breakout",
      inputs := [{ type := .indicator, source := "ema_20" }], outputs := ["signal"] } ]

/-- Spec §8 seed test 4: indicator `a` depends on `b`, `b` depends on `a`. -/
def c6Defs : List NodeDef :=
  [ { id := "a", type := "EMA",
      inputs := [{ type := .indicator, source := "b" }], outputs := ["value"] },
    { id := "b", type := "EMA",
      inputs := [{ type := .indicator, source := "a" }], outputs := ["value"] } ]

end Dag

namespace EngineConfig

open Dag

/-- `engine/config/loader.py` `IndicatorConfig` (pydantic model): `params`
is a YAML dict, `inputs` a list of raw YAML dicts. -/
structure IndicatorConfig where
  id : String
  type : String
  params : List (String × PyVal) := []
  inputs : List PyVal

/-- `engine/config/loader.py` `StrategyConfig`. -/
structure StrategyConfig where
  id : String
  type : String
  params : List (String × PyVal) := []
  depends_on : List String

/-- `engine/config/loader.py` `PipelineConfig`. -/
structure PipelineConfig where
  symbol : String
  indicators : List IndicatorConfig := []
  strategies : List StrategyConfig := []

/-- The de-duplication test of `_merge_configs` (loader.py:149-151): the
merge proceeds silently iff `existing.params == ind.params and
existing.type == ind.type and existing.inputs == ind.inputs` under
Python `==`. -/
def structurallyIdentical (existing ind : IndicatorConfig) : Bool :=
  pyEqDict existing.params ind.params && existing.type == ind.type &&
    pyEqList existing.inputs ind.inputs

/-- The two merge loops of `ConfigLoader._merge_configs` (loader.py:140-165),
producing the `all_indicators` and `all_strategies` dicts.  The Python
conflict message appends the `repr` of both conflicting definitions; those
reprs are omitted here (no claim depends on them). -/
def mergeMaps (configs : List PipelineConfig) :
    Except String (List (String × IndicatorConfig) × List (String × StrategyConfig)) :=
  configs.foldlM (fun acc config => do
    let all_indicators ← config.indicators.foldlM (fun all_indicators ind =>
      match alookup all_indicators ind.id with
      | some existing =>
          if structurallyIdentical existing ind = false then
            Except.error ("Conflicting definitions for indicator: " ++ ind.id)
          else
            Except.ok all_indicators
      | none => Except.ok (ainsert all_indicators ind.id ind)) acc.1
    let all_strategies ← config.strategies.foldlM (fun all_strategies strat =>
      if (alookup all_strategies strat.id).isSome then
        Except.error ("Duplicate strategy id: " ++ strat.id)
      else
        Except.ok (ainsert all_strategies strat.id strat)) acc.2
    Except.ok (all_indicators, all_strategies)) ([], [])

/-- `InputType(inp_dict["type"])`: the enum accepts exactly the three
string values. -/
def inputTypeOfVal : PyVal → Option InputType
  | .str "tick" => some .tick
  | .str "candle" => some .candle
  | .str "indicator" => some .indicator
  | _ => none

/-- Building one `InputRef` from a raw input dict (loader.py:173-188): a
missing `type`/`source` key is the caught `KeyError`, an invalid enum value
the caught `ValueError`.  (A non-string `source`/`field` would be stored
as-is by Python; the model rejects it — unreachable for well-formed
configs, which is hypothesized where it matters.) -/
def inputRefOfDict (ind_id : String) (d : PyVal) : Except String InputRef :=
  match d with
  | .obj kvs => do
      let tval ← match alookup kvs "type" with
        | some tv => Except.ok tv
        | none =>
            Except.error ("Invalid input for indicator " ++ ind_id ++ ": missing 'type'")
      let itype ← match inputTypeOfVal tval with
        | some t => Except.ok t
        | none =>
            Except.error ("Invalid input type for indicator " ++ ind_id ++
              ": not a valid InputType")
      let source ← match alookup kvs "source" with
        | some (.str s) => Except.ok s
        | some _ =>
            Except.error ("Invalid input for indicator " ++ ind_id ++
              ": source is not a string")
        | none =>
            Except.error ("Invalid input for indicator " ++ ind_id ++ ": missing 'source'")
      let field := match alookup kvs "field" with
        | some (.str f) => some f
        | _ => none
      Except.ok { type := itype, source := source, field := field }
  | _ => Except.error ("Invalid input for indicator " ++ ind_id ++ ": not a mapping")

/-- Conversion of one merged indicator to a `NodeDef` (loader.py:171-196):
default single output `["value"]`. -/
def convertIndicator (ind : IndicatorConfig) : Except String NodeDef := do
  let inputs ← ind.inputs.foldlM (fun acc d => do
    let r ← inputRefOfDict ind.id d
    Except.ok (acc ++ [r])) []
  Except.ok { id := ind.id, type := ind.type, inputs := inputs, params := ind.params,
              outputs := ["value"] }

/-- Conversion of one merged strategy to a `NodeDef` (loader.py:199-211):
inputs synthesized from `depends_on`, default output `["signal"]`. -/
def convertStrategy (strat : StrategyConfig) : NodeDef :=
  { id := strat.id, type := strat.type,
    inputs := strat.depends_on.map
      (fun dep => { type := InputType.indicator, source := dep }),
    params := strat.params, outputs := ["signal"] }

/-- `ConfigLoader._merge_configs`. -/
def mergeConfigs (configs : List PipelineConfig) : Except String (List NodeDef) := do
  let (all_indicators, all_strategies) ← mergeMaps configs
  let node_defs ← all_indicators.foldlM (fun acc e => do
    let nd ← convertIndicator e.2
    Except.ok (acc ++ [nd])) []
  Except.ok (node_defs ++ all_strategies.map (fun e => convertStrategy e.2))

/-- Concrete configs for the C7 witness (spec seed test 3 flavor). -/
def c7i1 : IndicatorConfig :=
  { id := "ema_20", type := "EMA", params := [("length", .num 20)],
    inputs := [.obj [("type", .str "candle"), ("source", .str "5m")]] }

def c7i2 : IndicatorConfig :=
  { id := "ema_20", type := "EMA", params := [("length", .num 20)],
    inputs := [.obj [("type", .str "candle"), ("source", .str "5m")]] }

def c7s1 : StrategyConfig :=
  { id := "breakout", type := "Breakout", depends_on := ["ema_20"] }

def c7s2 : StrategyConfig :=
  { id := "breakout", type := "BreakoutV2", depends_on := ["ema_50"] }

end EngineConfig

namespace Scheduler

open Dag

/-- A node's per-event output: a string-keyed dict of values. -/
abbrev Output := List (String × PyVal)

/-- A runtime `Node` instance (node.py protocol): `compute` takes the
gathered inputs and the node's state; Python mutates the state in place,
modeled by returning the new state; a raised exception is `.error`. -/
structure RNode (σ : Type) where
  compute : List (String × PyVal) → σ → Except String (Output × σ)

/-- `DAGExecutor._add_transitive_deps`, fuel-indexed (each recursive call
first inserts a node not yet in `impacted`, so |nodes| + 1 fuel at the top
never runs out on well-formed graphs; `impacted` is a Python set modeled as
a de-duplicating insertion-ordered list). -/
def addTransitiveDeps (reverse_deps : List (String × List String)) :
    Nat → String → List String → List String
  | 0, _, impacted => impacted
  | fuel + 1, node_id, impacted =>
      ((alookup reverse_deps node_id).getD []).foldl (fun impacted dep =>
        if dep ∉ impacted then
          addTransitiveDeps reverse_deps fuel dep (impacted ++ [dep])
        else impacted) impacted

/-- `DAGExecutor._get_impacted_nodes`. -/
def getImpactedNodes (dag : DAGState) (event_type : String)
    (event_data : List (String × PyVal)) : List String :=
  dag.nodes.foldl (fun impacted entry =>
    entry.2.inputs.foldl (fun impacted inp =>
      if inp.type.value = event_type then
        if event_type = "candle" then
          match alookup event_data "timeframe" with
          | some (.str event_tf) =>
              if inp.source = event_tf then
                let impacted2 :=
                  if entry.1 ∈ impacted then impacted else impacted ++ [entry.1]
                addTransitiveDeps dag.reverse_deps (dag.nodes.length + 1)
                  entry.1 impacted2
              else impacted
          | _ => impacted
        else
          let impacted2 :=
            if entry.1 ∈ impacted then impacted else impacted ++ [entry.1]
          addTransitiveDeps dag.reverse_deps (dag.nodes.length + 1) entry.1 impacted2
      else impacted) impacted) []

/-- `DAGExecutor._gather_inputs`.  A TICK input contributes the event under
key `"tick"`; a CANDLE input whose source matches the event's timeframe
contributes it under `"candle_{source}"`; an INDICATOR input contributes
the upstream's cached output under the source id — the whole dict, or the
projected field when `inp_ref.field` is truthy (a missing projected field
is Python `None`) — and contributes nothing when the upstream has no
cached output or an empty one (`if indicator_output:`). -/
def gatherInputs (node_def : NodeDef) (event_type : String)
    (event_data : List (String × PyVal))
    (node_outputs : List (String × Output)) : List (String × PyVal) :=
  node_def.inputs.foldl (fun inputs inp_ref =>
    if inp_ref.type = InputType.tick ∧ event_type = "tick" then
      ainsert inputs "tick" (.obj event_data)
    else if inp_ref.type = InputType.candle ∧ event_type = "candle" then
      match alookup event_data "timeframe" with
      | some (.str tf) =>
          if inp_ref.source = tf then
            ainsert inputs ("candle_" ++ inp_ref.source) (.obj event_data)
          else inputs
      | _ => inputs
    else if inp_ref.type = InputType.indicator then
      match alookup node_outputs inp_ref.source with
      | some indicator_output =>
          if indicator_output.isEmpty then inputs
          else
            match inp_ref.field with
            | some f =>
                if f ≠ "" then
                  ainsert inputs inp_ref.source ((alookup indicator_output f).getD .nullV)
                else
                  ainsert inputs inp_ref.source (.obj indicator_output)
            | none => ainsert inputs inp_ref.source (.obj indicator_output)
      | none => inputs
    else inputs) []

/-- `DAGExecutor._execute_node`.  The instance and definition lookups are
outside the `try` (a missing one propagates); the state lookup and
`compute` are inside it — any raise there records `{}` as the node's
output and execution continues. -/
def executeNode {σ : Type} (dag : DAGState) (nodes : List (String × RNode σ))
    (node_id : String) (event_type : String) (event_data : List (String × PyVal))
    (acc : List (String × Output) × List (String × σ)) :
    Except String (List (String × Output) × List (String × σ)) := do
  let node ← match alookup nodes node_id with
    | some n => Except.ok n
    | none => Except.error ("KeyError: " ++ node_id)
  let node_def ← match alookup dag.nodes node_id with
    | some nd => Except.ok nd
    | none => Except.error ("KeyError: " ++ node_id)
  let inputs := gatherInputs node_def event_type event_data acc.1
  match alookup acc.2 node_id with
  | none => Except.ok (ainsert acc.1 node_id [], acc.2)
  | some st =>
      match node.compute inputs st with
      | .ok (output, st2) =>
          Except.ok (ainsert acc.1 node_id output, ainsert acc.2 node_id st2)
      | .error _ => Except.ok (ainsert acc.1 node_id [], acc.2)

/-- The filtered execution order of `execute_event` step 2. -/
def execOrder (dag : DAGState) (event_type : String)
    (event_data : List (String × PyVal)) : List String :=
  dag.topo_order.filter (fun n => n ∈ getImpactedNodes dag event_type event_data)

/-- `DAGExecutor.execute_event`: clear `node_outputs`, compute the impacted
set, run the impacted nodes in filtered topological order; returns the
final `(node_outputs, node_states)`. -/
def executeEvent {σ : Type} (dag : DAGState) (nodes : List (String × RNode σ))
    (states : List (String × σ)) (event_type : String)
    (event_data : List (String × PyVal)) :
    Except String (List (String × Output) × List (String × σ)) :=
  let impacted := getImpactedNodes dag event_type event_data
  if impacted = [] then
    Except.ok ([], states)
  else
    (dag.topo_order.filter (fun n => n ∈ impacted)).foldlM
      (fun acc node_id => executeNode dag nodes node_id event_type event_data acc)
      ([], states)

/-- Pipeline for the C3 counterexample (spec seed test 5 flavor): `C1m`
consumes 1-minute candles, `C1m_der` depends on `C1m`. -/
def c3Defs : List NodeDef :=
  [ { id := "C1m", type := "CandleNode",
      inputs := [{ type := .candle, source := "1m" }], outputs := ["value"] },
    { id := "C1m_der", type := "DerivedNode",
      inputs := [{ type := .indicator, source := "C1m" }], outputs := ["value"] } ]

/-- Instances for the C3 counterexample: `C1m` emits `{"value": "x"}`,
`C1m_der` echoes its gathered inputs (making them observable). -/
def c3Nodes : List (String × RNode Unit) :=
  [ ("C1m", { compute := fun _ st => .ok ([("value", .str "x")], st) }),
    ("C1m_der", { compute := fun inputs st => .ok (inputs, st) }) ]

def c3States : List (String × Unit) := [("C1m", ()), ("C1m_der", ())]

def c3Event : List (String × PyVal) :=
  [("symbol", .str "ES"), ("timeframe", .str "1m"), ("close", .str "100")]

end Scheduler

namespace Scheduler

open Dag

/-- Witness pipeline for C8: `bad` (a 1-minute candle input) whose compute
always raises, and `down`, an indicator consumer of `bad` that echoes its
gathered inputs. -/
def c8Bad : RNode Unit := { compute := fun _ _ => .error "boom" }

def c8Down : RNode Unit := { compute := fun inputs st => .ok (inputs, st) }

def c8BadDef : NodeDef :=
  { id := "bad", type := "BadNode",
    inputs := [{ type := .candle, source := "1m" }], outputs := ["value"] }

def c8DownDef : NodeDef :=
  { id := "down", type := "EchoNode",
    inputs := [{ type := .indicator, source := "bad" }], outputs := ["value"] }

def c8Dag : DAGState :=
  { nodes := [("bad", c8BadDef), ("down", c8DownDef)],
    adjacency := [("bad", []), ("down", ["bad"])],
    reverse_deps := [("bad", ["down"])],
    topo_order := ["bad", "down"] }

def c8Nodes : List (String × RNode Unit) := [("bad", c8Bad), ("down", c8Down)]

def c8States : List (String × Unit) := [("bad", ()), ("down", ())]

def c8Event : List (String × PyVal) := [("timeframe", .str "1m")]

end Scheduler

/-! ## Theorems -/

namespace CandleAgg

/-- Fields of a fold of `add_tick` over a builder whose OHLC fields are all
set: open is preserved, high/low accumulate max/min, close tracks the last
price, volume and tick_count accumulate. -/
theorem foldl_add_tick_char (ts : List Tick) :
    ∀ (b : CandleBuilder) (o hi lo cl : ℚ),
      b.open_ = some o → b.high = some hi → b.low = some lo → b.close = some cl →
      ts.foldl CandleBuilder.add_tick b =
        { b with
          high := some (ts.foldl (fun a x => max a x.price) hi),
          low := some (ts.foldl (fun a x => min a x.price) lo),
          close := some ((ts.map Tick.price).getLastD cl),
          volume := b.volume + (ts.map (fun x => x.volume.getD 0)).sum,
          tick_count := b.tick_count + ts.length } := by
  induction ts with
  | nil =>
      intro b o hi lo cl ho hhi hlo hcl
      simp only [List.foldl_nil, List.map_nil, List.getLastD_nil, List.sum_nil,
        List.length_nil]
      cases b
      simp_all
  | cons x ts ih =>
      intro b o hi lo cl ho hhi hlo hcl
      have hne : ¬ b.open_ = none := by rw [ho]; simp
      have hstep : CandleBuilder.add_tick b x =
          { b with
            high := some (max hi x.price),
            low := some (min lo x.price),
            close := some x.price,
            volume := b.volume + x.volume.getD 0,
            tick_count := b.tick_count + 1 } := by
        simp [CandleBuilder.add_tick, hne, hhi, hlo]
      rw [List.foldl_cons, hstep]
      rw [ih _ o (max hi x.price) (min lo x.price) x.price (by simp [ho]) (by simp)
        (by simp) (by simp)]
      simp [List.getLastD_cons, add_assoc]
      constructor
      · simp [List.getLast?_cons, Option.getD_map]
      · omega

/-- C5: folding any non-empty sequence of ticks into a fresh `CandleBuilder`
builds a candle whose `open` is the first tick's price, `close` the last
tick's price, `high`/`low` the maximum/minimum of the tick prices, `volume`
the sum of the tick volumes (a missing volume counted as 0), and
`tick_count` the number of ticks folded. -/
theorem C5_builder_fold (symbol timeframe : String) (start_time : ℚ)
    (t : Tick) (ts : List Tick) :
    ∃ c : Candle,
      ((t :: ts).foldl CandleBuilder.add_tick
          (newBuilder symbol timeframe start_time)).build = .ok c
      ∧ c.open_ = t.price
      ∧ ((t :: ts).map Tick.price).getLast? = some c.close
      ∧ ((t :: ts).map Tick.price).max? = some c.high
      ∧ ((t :: ts).map Tick.price).min? = some c.low
      ∧ c.volume = ((t :: ts).map (fun x => x.volume.getD 0)).sum
      ∧ c.tick_count = (t :: ts).length := by
  have hb0 : CandleBuilder.add_tick (newBuilder symbol timeframe start_time) t =
      { symbol := symbol, timeframe := timeframe, start_time := start_time,
        open_ := some t.price, high := some t.price, low := some t.price,
        close := some t.price, volume := t.volume.getD 0, tick_count := 1 } := by
    simp [CandleBuilder.add_tick, newBuilder]
  rw [List.foldl_cons, hb0]
  rw [foldl_add_tick_char ts _ t.price t.price t.price t.price rfl rfl rfl rfl]
  refine ⟨_, rfl, ?_⟩
  simp [CandleBuilder.build, List.max?, List.min?, List.foldl_map,
    List.getLastD_eq_getLast?, List.getLast?_cons, add_comm]

end CandleAgg

namespace CandleAgg

/-- `handleTick` over a single configured timeframe, given the result of
`_get_or_create_builder`. -/
theorem handleTick_one (tf : String) (bs bs2 : Builders) (b : CandleBuilder)
    (tick : Tick) (is_new : Bool)
    (h : getOrCreateBuilder bs tick.symbol tf tick.timestamp = .ok (bs2, b, is_new)) :
    handleTick [tf] bs tick = .ok (ainsert bs2 (tick.symbol, tf) (b.add_tick tick)) := by
  simp [handleTick, List.foldlM, h, bind, Except.bind, pure, Except.pure]

theorem getOrCreate_new (bs : Builders) (symbol tf : String) (ts : ℚ) (w : Int) (st : ℚ)
    (hw : alookup TIMEFRAMES tf = some w)
    (hb : alookup bs (symbol, tf) = none)
    (hst : getCandleStart ts w = st) :
    getOrCreateBuilder bs symbol tf ts =
      .ok (ainsert bs (symbol, tf) (newBuilder symbol tf st), newBuilder symbol tf st, true) := by
  simp [getOrCreateBuilder, hw, hst, hb, bind, Except.bind]

theorem getOrCreate_same (bs : Builders) (symbol tf : String) (ts : ℚ) (w : Int)
    (ex : CandleBuilder)
    (hw : alookup TIMEFRAMES tf = some w)
    (hb : alookup bs (symbol, tf) = some ex)
    (hst : getCandleStart ts w = ex.start_time) :
    getOrCreateBuilder bs symbol tf ts = .ok (bs, ex, false) := by
  simp [getOrCreateBuilder, hw, hst, hb, bind, Except.bind]

/-- The boundary case: the aligned start of the incoming timestamp differs
from the stored builder's start; the stored builder `ex` is dropped on the
floor and replaced by a fresh builder. -/
theorem getOrCreate_replace (bs : Builders) (symbol tf : String) (ts : ℚ) (w : Int) (st : ℚ)
    (ex : CandleBuilder)
    (hw : alookup TIMEFRAMES tf = some w)
    (hb : alookup bs (symbol, tf) = some ex)
    (hst : getCandleStart ts w = st)
    (hne : ex.start_time ≠ st) :
    getOrCreateBuilder bs symbol tf ts =
      .ok (ainsert bs (symbol, tf) (newBuilder symbol tf st), newBuilder symbol tf st, true) := by
  simp [getOrCreateBuilder, hw, hst, hb, bind, Except.bind, hne]

/-- One sweep wake-up over a single-entry builder table whose builder is
non-empty and overdue: it is finalized and replaced. -/
theorem sweepStep_one (symbol tf : String) (b : CandleBuilder) (now : ℚ) (w : Int)
    (c : Candle)
    (hw : alookup TIMEFRAMES tf = some w)
    (hne : b.is_empty = false)
    (hend : b.start_time + (w : ℚ) ≤ now)
    (hc : b.build = .ok c) :
    sweepStep [((symbol, tf), b)] now =
      .ok (ainsert [((symbol, tf), b)] (symbol, tf)
             (newBuilder symbol tf (getCandleStart now w)), [c]) := by
  simp [sweepStep, List.foldlM, hw, hne, hc, hend, bind, Except.bind, pure, Except.pure,
    ge_iff_le]

theorem step1 : handleTick ["1m"] [] tk1 = .ok [(("ES", "1m"), b1)] := by
  have h := getOrCreate_new [] "ES" "1m" (36005 : ℚ) 60 36000
    (by norm_num [TIMEFRAMES, alookup]) (by simp [alookup]) (by norm_num [getCandleStart])
  rw [handleTick_one "1m" [] _ _ tk1 true
    (by rw [show tk1.symbol = "ES" from rfl, show tk1.timestamp = (36005 : ℚ) from rfl]; exact h)]
  norm_num [ainsert, newBuilder, CandleBuilder.add_tick, tk1, b1]

theorem step2 : handleTick ["1m"] [(("ES", "1m"), b1)] tk2 = .ok [(("ES", "1m"), b2)] := by
  have h := getOrCreate_same [(("ES", "1m"), b1)] "ES" "1m" (36030 : ℚ) 60 b1
    (by norm_num [TIMEFRAMES, alookup]) (by simp [alookup])
    (by norm_num [getCandleStart, b1])
  rw [handleTick_one "1m" _ _ _ tk2 false
    (by rw [show tk2.symbol = "ES" from rfl, show tk2.timestamp = (36030 : ℚ) from rfl]; exact h)]
  norm_num [ainsert, CandleBuilder.add_tick, tk2, b1, b2, apply_ite,
    Option.some_ne_none, min_def, max_def]

theorem step3 : handleTick ["1m"] [(("ES", "1m"), b2)] tk3 = .ok [(("ES", "1m"), b3)] := by
  have h := getOrCreate_same [(("ES", "1m"), b2)] "ES" "1m" (36059 : ℚ) 60 b2
    (by norm_num [TIMEFRAMES, alookup]) (by simp [alookup])
    (by norm_num [getCandleStart, b2, b1])
  rw [handleTick_one "1m" _ _ _ tk3 false
    (by rw [show tk3.symbol = "ES" from rfl, show tk3.timestamp = (36059 : ℚ) from rfl]; exact h)]
  norm_num [ainsert, CandleBuilder.add_tick, tk3, b1, b2, b3, apply_ite,
    Option.some_ne_none, min_def, max_def]

theorem step4 : handleTick ["1m"] [(("ES", "1m"), b3)] tk4 = .ok [(("ES", "1m"), b4)] := by
  have h := getOrCreate_replace [(("ES", "1m"), b3)] "ES" "1m" (36065 : ℚ) 60 36060 b3
    (by norm_num [TIMEFRAMES, alookup]) (by simp [alookup])
    (by norm_num [getCandleStart]) (by norm_num [b3, b2, b1])
  rw [handleTick_one "1m" _ _ _ tk4 true
    (by rw [show tk4.symbol = "ES" from rfl, show tk4.timestamp = (36065 : ℚ) from rfl]; exact h)]
  norm_num [ainsert, newBuilder, CandleBuilder.add_tick, tk4, b4,
    Option.some_ne_none, min_def, max_def]

/-- C2: refuted by the code.  Running the spec's 1-minute-alignment scenario
(ticks at 10:00:05/100, 10:00:30/101, 10:00:59/99 and 10:01:05/102 with
width 60 s) through the tick handler publishes NOTHING: the 4th tick's new
alignment silently discards the 10:00:00 builder (O=100 H=101 L=99 C=99 V=4
n=3) instead of finalizing and enqueueing it, and only the fresh 10:01:00
builder holding the 4th tick survives. -/
theorem C2_boundary_tick_discards_builder :
    aggRun ["1m"] [] [.tick tk1, .tick tk2, .tick tk3, .tick tk4] =
      .ok ([(("ES", "1m"), b4)], ([] : List Candle)) := by
  simp [aggRun, aggStep, step1, step2, step3, step4, bind, Except.bind]

theorem stepB : handleTick ["1m"] [(("ES", "1m"), b1)] tkB = .ok [(("ES", "1m"), bB)] := by
  have h := getOrCreate_replace [(("ES", "1m"), b1)] "ES" "1m" (36065 : ℚ) 60 36060 b1
    (by norm_num [TIMEFRAMES, alookup]) (by simp [alookup])
    (by norm_num [getCandleStart]) (by norm_num [b1])
  rw [handleTick_one "1m" _ _ _ tkB true
    (by rw [show tkB.symbol = "ES" from rfl, show tkB.timestamp = (36065 : ℚ) from rfl]; exact h)]
  norm_num [ainsert, newBuilder, CandleBuilder.add_tick, tkB, bB,
    Option.some_ne_none, min_def, max_def]

/-- C4: refuted by the code.  With strictly increasing ticks at 10:00:05 and
10:01:05 followed by a sweep at 10:02:30, exactly one candle is ever
published — for the 10:01:00 interval — although the 10:00:00 interval also
contained a tick: the second tick's boundary crossing silently discarded the
10:00:00 builder, so that interval's candle is emitted zero times. -/
theorem C4_tick_interval_candle_lost :
    aggRun ["1m"] [] [.tick tk1, .tick tkB, .sweep 36150] =
      .ok ([(("ES", "1m"), newBuilder "ES" "1m" 36120)],
           [{ symbol := "ES", timestamp := 36060, timeframe := "1m",
              open_ := 101, high := 101, low := 101, close := 101,
              volume := 1, tick_count := 1 }]) := by
  have hsw := sweepStep_one "ES" "1m" bB 36150 60
    { symbol := "ES", timestamp := 36060, timeframe := "1m",
      open_ := 101, high := 101, low := 101, close := 101, volume := 1, tick_count := 1 }
    (by norm_num [TIMEFRAMES, alookup])
    (by simp [CandleBuilder.is_empty, bB])
    (by norm_num [bB]) (by simp [CandleBuilder.build, bB])
  rw [show getCandleStart 36150 60 = (36120 : ℚ) from by norm_num [getCandleStart]] at hsw
  simp [aggRun, aggStep, step1, stepB, hsw, bind, Except.bind, ainsert]

end CandleAgg

namespace Dag

/-- C1: refuted by the code.  On the builder's own docstring example
(`ema_20` with a candle input, `strategy` with an INDICATOR input sourced
from `ema_20`), `build` accepts the graph with
`adjacency["strategy"] = ["ema_20"]` but produces
`topo_order = ["strategy", "ema_20"]`: the dependency `ema_20` comes
STRICTLY AFTER its dependent, because `_compute_topo_order` increments
`in_degree[dep]` for each dependency `dep` (counting dependents) and then
walks dependency lists as the neighbors to decrement — Kahn's algorithm run
on the reversed graph. -/
theorem C1_topo_order_inconsistent_with_adjacency :
    ∃ st, build c1Defs = .ok st
      ∧ alookup st.adjacency "strategy" = some ["ema_20"]
      ∧ st.topo_order = ["strategy", "ema_20"]
      ∧ ¬ st.topo_order.indexOf "ema_20" < st.topo_order.indexOf "strategy" := by
  exact ⟨_, rfl, rfl, rfl, by decide⟩

end Dag

theorem alookup_isSome_mem {κ α : Type} [DecidableEq κ]
    (l : List (κ × α)) (k : κ) (v : α) (h : alookup l k = some v) :
    k ∈ l.map Prod.fst := by
  induction l with
  | nil => simp [alookup] at h
  | cons hd tl ih =>
      by_cases hk : hd.1 = k
      · simp [hk]
      · simp [alookup, hk] at h
        simp [ih h]

theorem alookup_map_value {κ α β : Type} [DecidableEq κ]
    (l : List (κ × α)) (g : α → β) (k : κ) :
    alookup (l.map (fun e => (e.1, g e.2))) k = (alookup l k).map g := by
  induction l with
  | nil => simp [alookup]
  | cons hd tl ih =>
      by_cases hk : hd.1 = k <;> simp [alookup, hk, ih]

/-- A filter by a stronger predicate is strictly shorter when some element
separates the two predicates. -/
theorem length_filter_lt_of_witness {α : Type} (keys : List α) (p q : α → Bool)
    (himp : ∀ a, q a = true → p a = true) (x : α) (hx : x ∈ keys)
    (hp : p x = true) (hq : ¬ q x = true) :
    (keys.filter q).length < (keys.filter p).length := by
  have hsub : List.Sublist (keys.filter q) (keys.filter p) := by
    apply List.monotone_filter_right
    intro a ha
    exact himp a ha
  rcases Nat.lt_or_ge (keys.filter q).length (keys.filter p).length with h | h
  · exact h
  · exfalso
    have heq : keys.filter q = keys.filter p :=
      List.Sublist.eq_of_length_le hsub h
    have hxin : x ∈ keys.filter p := List.mem_filter.mpr ⟨hx, hp⟩
    rw [← heq] at hxin
    exact hq (List.mem_filter.mp hxin).2

/-- Strict decrease of the unvisited count when a fresh key is visited. -/
theorem filter_not_mem_append_lt {α : Type} [DecidableEq α]
    (keys visited : List α) (x : α) (hx : x ∈ keys) (hnx : x ∉ visited) :
    ((keys.filter (fun k => k ∉ visited ++ [x])).length <
      (keys.filter (fun k => k ∉ visited)).length) := by
  apply length_filter_lt_of_witness keys (fun k => decide (k ∉ visited))
    (fun k => decide (k ∉ visited ++ [x]))
  · intro a ha
    simp at ha ⊢
    exact ha.1
  · exact hx
  · simpa using hnx
  · simp

/-- Monotone decrease of the unvisited count as `visited` grows. -/
theorem filter_not_mem_mono {α : Type} [DecidableEq α]
    (keys visited visited2 : List α) (h : ∀ x ∈ visited, x ∈ visited2) :
    ((keys.filter (fun k => k ∉ visited2)).length ≤
      (keys.filter (fun k => k ∉ visited)).length) := by
  apply List.Sublist.length_le
  apply List.monotone_filter_right
  intro a ha
  simp at ha ⊢
  intro hv
  exact absurd (h a hv) ha

namespace Dag

theorem isChain_drop (G : String → String → Prop) (l : List String) (i : Nat)
    (h : isChain G l) : isChain G (l.drop i) := by
  induction i generalizing l with
  | zero => simpa using h
  | succ n ih =>
      cases l with
      | nil => simp [isChain]
      | cons a tl =>
          have htl : isChain G tl := by
            cases tl with
            | nil => simp [isChain]
            | cons b rest => exact h.2
          simpa using ih tl htl

theorem isChain_append_singleton (G : String → String → Prop) :
    ∀ (l : List String), isChain G l → ∀ d, (∀ a, l.getLast? = some a → G a d) →
      isChain G (l ++ [d])
  | [], _, d, _ => by simp [isChain]
  | [a], _, d, hlast => by
      simp [isChain]
      exact hlast a rfl
  | a :: b :: rest, h, d, hlast => by
      refine ⟨h.1, ?_⟩
      exact isChain_append_singleton G (b :: rest) h.2 d
        (fun a2 ha2 => hlast a2 (by simpa using ha2))

theorem drop_indexOf_cons {α : Type} [DecidableEq α] (l : List α) (a : α) (h : a ∈ l) :
    ∃ tail, l.drop (l.indexOf a) = a :: tail := by
  induction l with
  | nil => simp at h
  | cons hd tl ih =>
      by_cases hhd : hd = a
      · subst hhd
        exact ⟨tl, by simp⟩
      · have hmem : a ∈ tl := by
          rcases List.mem_cons.mp h with h1 | h1
          · exact absurd h1.symm hhd
          · exact h1
        obtain ⟨tail, htail⟩ := ih hmem
        refine ⟨tail, ?_⟩
        rw [List.indexOf_cons_ne _ hhd]
        simpa using htail

theorem getLast?_drop_of_lt {α : Type} (l : List α) (i : Nat) (h : i < l.length) :
    (l.drop i).getLast? = l.getLast? := by
  induction l generalizing i with
  | nil => simp at h
  | cons hd tl ih =>
      cases i with
      | zero => simp
      | succ n =>
          simp at h
          rw [List.drop_succ_cons]
          rw [ih n h]
          cases tl with
          | nil => simp at h
          | cons b rest => simp

end Dag

namespace Dag

theorem adjEdge_mem_keys (adjacency : List (String × List String)) (u v : String)
    (h : adjEdge adjacency u v) : u ∈ adjacency.map Prod.fst := by
  unfold adjEdge depsGetD at h
  cases hl : alookup adjacency u with
  | none => rw [hl] at h; simp at h
  | some deps => exact alookup_isSome_mem _ _ _ hl

theorem goodOrder_chain_desc (adjacency : List (String × List String))
    (f : List String) (hg : GoodOrder adjacency f) :
    ∀ l, isChain (adjEdge adjacency) l → ∀ a, l.head? = some a → a ∈ f →
      ∀ b, l.getLast? = some b →
        b ∈ f ∧ (2 ≤ l.length → f.indexOf b < f.indexOf a)
  | [], _, a, ha, _, b, hb => by simp at ha
  | [x], _, a, ha, haf, b, hb => by
      simp at ha hb
      subst ha; subst hb
      exact ⟨haf, by simp⟩
  | x :: y :: rest, hch, a, ha, haf, b, hb => by
      simp at ha
      subst ha
      have hedge : adjEdge adjacency x y := hch.1
      have hy := hg x haf y hedge
      have hrec := goodOrder_chain_desc adjacency f hg (y :: rest) hch.2 y rfl hy.1 b
        (by simpa using hb)
      refine ⟨hrec.1, fun _ => ?_⟩
      cases rest with
      | nil =>
          simp at hb
          subst hb
          exact hy.2
      | cons z rest2 =>
          exact lt_trans (hrec.2 (by simp)) hy.2

theorem goodOrder_no_cycle (adjacency : List (String × List String))
    (f : List String) (hg : GoodOrder adjacency f)
    (hkeys : ∀ k ∈ adjacency.map Prod.fst, k ∈ f) :
    ∀ c, ¬ isCycleList (adjEdge adjacency) c := by
  intro c hc
  obtain ⟨hlen, hch, hhl⟩ := hc
  match c, hlen, hch, hhl with
  | x :: y :: rest, hlen, hch, hhl =>
      have hx : x ∈ f := by
        apply hkeys
        exact adjEdge_mem_keys adjacency x y hch.1
      have hlast : (x :: y :: rest).getLast? = some x := by
        simp at hhl
        exact hhl.symm
      have hdesc := goodOrder_chain_desc adjacency f hg (x :: y :: rest) hch x rfl hx x hlast
      have := hdesc.2 (by simp)
      omega

end Dag

theorem ainsert_of_not_mem {κ α : Type} [DecidableEq κ]
    (l : List (κ × α)) (k : κ) (v : α) (h : k ∉ l.map Prod.fst) :
    ainsert l k v = l ++ [(k, v)] := by
  induction l with
  | nil => simp [ainsert]
  | cons hd tl ih =>
      have h1 : ¬ hd.1 = k := fun hh => h (by simp [hh])
      have h2 : k ∉ tl.map Prod.fst := fun hh => h (by simp [hh])
      simp [ainsert, h1, ih h2]

theorem mem_ainsert {κ α : Type} [DecidableEq κ]
    (l : List (κ × α)) (k : κ) (v : α) (e : κ × α) (h : e ∈ ainsert l k v) :
    e ∈ l ∨ e = (k, v) := by
  induction l with
  | nil => simp [ainsert] at h; simp [h]
  | cons hd tl ih =>
      by_cases hk : hd.1 = k
      · simp only [ainsert, if_pos hk] at h
        rcases List.mem_cons.mp h with h1 | h1
        · right; rw [h1, ← hk]
        · left; simp [h1]
      · simp only [ainsert, if_neg hk] at h
        rcases List.mem_cons.mp h with h1 | h1
        · left; simp [h1]
        · rcases ih h1 with h2 | h2
          · left; simp [h2]
          · right; exact h2

theorem keys_ainsert {κ α : Type} [DecidableEq κ]
    (l : List (κ × α)) (k : κ) (v : α) :
    (ainsert l k v).map Prod.fst =
      if k ∈ l.map Prod.fst then l.map Prod.fst else l.map Prod.fst ++ [k] := by
  induction l with
  | nil => simp [ainsert]
  | cons hd tl ih =>
      by_cases hk : hd.1 = k
      · simp [ainsert, hk]
      · have h2 : ¬ k = hd.1 := fun hh => hk hh.symm
        by_cases hmem : k ∈ tl.map Prod.fst <;>
          simp [ainsert, hk, ih, hmem, h2]

theorem keys_nodup_ainsert {κ α : Type} [DecidableEq κ]
    (l : List (κ × α)) (k : κ) (v : α) (h : (l.map Prod.fst).Nodup) :
    ((ainsert l k v).map Prod.fst).Nodup := by
  rw [keys_ainsert]
  by_cases hmem : k ∈ l.map Prod.fst
  · simpa [hmem] using h
  · simp [hmem]
    have hdisj : List.Disjoint (l.map Prod.fst) [k] := by
      intro a ha hak
      simp at hak
      subst hak
      exact hmem ha
    exact List.Nodup.append h (by simp) hdisj

namespace Dag

theorem mkNodes_keys_nodup (defs : List NodeDef) : ((mkNodes defs).map Prod.fst).Nodup := by
  unfold mkNodes
  suffices h : ∀ (acc : List (String × NodeDef)), (acc.map Prod.fst).Nodup →
      ((defs.foldl (fun m n => ainsert m n.id n) acc).map Prod.fst).Nodup by
    exact h [] (by simp)
  induction defs with
  | nil => intro acc hacc; simpa using hacc
  | cons d ds ih =>
      intro acc hacc
      exact ih _ (keys_nodup_ainsert _ _ _ hacc)

theorem mkNodes_entry (defs : List NodeDef) :
    ∀ e ∈ mkNodes defs, e.2 ∈ defs ∧ e.1 = e.2.id := by
  unfold mkNodes
  suffices h : ∀ (acc : List (String × NodeDef)),
      (∀ e ∈ acc, e.2 ∈ defs ∧ e.1 = e.2.id) →
      ∀ e ∈ defs.foldl (fun m n => ainsert m n.id n) acc, e.2 ∈ defs ∧ e.1 = e.2.id by
    exact h [] (by simp)
  have hstep : ∀ (ds : List NodeDef), (∀ d ∈ ds, d ∈ defs) →
      ∀ (acc : List (String × NodeDef)), (∀ e ∈ acc, e.2 ∈ defs ∧ e.1 = e.2.id) →
      ∀ e ∈ ds.foldl (fun m n => ainsert m n.id n) acc, e.2 ∈ defs ∧ e.1 = e.2.id := by
    intro ds
    induction ds with
    | nil => intro _ acc hacc e he; exact hacc e he
    | cons d ds ih =>
        intro hds acc hacc e he
        refine ih (fun x hx => hds x (by simp [hx])) _ ?_ e he
        intro e2 he2
        rcases mem_ainsert _ _ _ _ he2 with h1 | h1
        · exact hacc e2 h1
        · subst h1
          exact ⟨hds d (by simp), rfl⟩
  intro acc hacc
  exact hstep defs (fun d hd => hd) acc hacc

end Dag

namespace Dag

theorem nodeDeps_ok_aux (nodes : List (String × NodeDef)) (node_id : String) :
    ∀ (inputs : List InputRef) (acc : List String),
      (∀ inp ∈ inputs, inp.type = InputType.indicator →
        (alookup nodes inp.source).isSome = true) →
      inputs.foldlM (fun deps inp =>
        match inp.type with
        | .indicator =>
            if (alookup nodes inp.source).isNone then
              Except.error
                ("Node '" ++ node_id ++ "' depends on unknown indicator: '" ++ inp.source ++ "'")
            else
              Except.ok (deps ++ [inp.source])
        | _ => Except.ok deps) acc =
      .ok (acc ++ (inputs.filter (fun inp => decide (inp.type = InputType.indicator))).map
            (fun inp => inp.source))
  | [], acc, _ => by simp [List.foldlM, pure, Except.pure]
  | inp :: rest, acc, hres => by
      have hrest : ∀ i ∈ rest, i.type = InputType.indicator →
          (alookup nodes i.source).isSome = true :=
        fun i hi => hres i (by simp [hi])
      match htype : inp.type with
      | .indicator =>
          have hsome := hres inp (by simp) htype
          have hnone : (alookup nodes inp.source).isNone = false := by
            cases halook : alookup nodes inp.source with
            | none => rw [halook] at hsome; simp at hsome
            | some _ => simp
          simp only [List.foldlM, htype, hnone, Bool.false_eq_true, if_false,
            bind, Except.bind]
          rw [nodeDeps_ok_aux nodes node_id rest (acc ++ [inp.source]) hrest]
          simp [htype]
      | .tick =>
          simp only [List.foldlM, htype, bind, Except.bind]
          rw [nodeDeps_ok_aux nodes node_id rest acc hrest]
          simp [htype]
      | .candle =>
          simp only [List.foldlM, htype, bind, Except.bind]
          rw [nodeDeps_ok_aux nodes node_id rest acc hrest]
          simp [htype]

theorem nodeDeps_ok (nodes : List (String × NodeDef)) (node_id : String) (nd : NodeDef)
    (hres : ∀ inp ∈ nd.inputs, inp.type = InputType.indicator →
      (alookup nodes inp.source).isSome = true) :
    nodeDeps nodes node_id nd = .ok (indicatorSources nd) := by
  unfold nodeDeps indicatorSources
  simpa using nodeDeps_ok_aux nodes node_id nd.inputs [] hres

end Dag

namespace Dag

theorem buildAdjacency_go (nodes : List (String × NodeDef)) :
    ∀ (es : List (String × NodeDef))
      (acc : List (String × List String) × List (String × List String)),
      (∀ e ∈ es, ∀ inp ∈ e.2.inputs, inp.type = InputType.indicator →
        (alookup nodes inp.source).isSome = true) →
      ((es.map Prod.fst).Nodup) →
      (∀ e ∈ es, e.1 ∉ acc.1.map Prod.fst) →
      ∃ rev, es.foldlM (buildAdjacencyStep nodes) acc =
        .ok (acc.1 ++ es.map (fun e => (e.1, indicatorSources e.2)), rev)
  | [], acc, _, _, _ => ⟨acc.2, by simp [List.foldlM, pure, Except.pure]⟩
  | e :: es, acc, hres, hnodup, hdisj => by
      obtain ⟨node_id, nd⟩ := e
      have hstep : buildAdjacencyStep nodes acc (node_id, nd) =
          .ok (acc.1 ++ [(node_id, indicatorSources nd)],
               (indicatorSources nd).foldl (fun rd dep =>
                 let s := (alookup rd dep).getD []
                 ainsert rd dep (if node_id ∈ s then s else s ++ [node_id])) acc.2) := by
        unfold buildAdjacencyStep
        dsimp only
        rw [nodeDeps_ok nodes node_id nd (fun inp hi => hres (node_id, nd) (by simp) inp hi)]
        simp only [bind, Except.bind]
        rw [ainsert_of_not_mem _ _ _ (hdisj (node_id, nd) (by simp))]
      have hnodup1 : node_id ∉ es.map Prod.fst ∧ (es.map Prod.fst).Nodup :=
        List.nodup_cons.mp (by simpa using hnodup)
      have hdisj2 : ∀ e2 ∈ es, e2.1 ∉
          (acc.1 ++ [(node_id, indicatorSources nd)]).map Prod.fst := by
        intro e2 he2
        simp only [List.map_append, List.mem_append]
        intro hmem
        rcases hmem with h1 | h1
        · exact hdisj e2 (by simp [he2]) h1
        · simp at h1
          exact hnodup1.1 (h1 ▸ List.mem_map_of_mem Prod.fst he2)
      obtain ⟨rev, hrev⟩ := buildAdjacency_go nodes es
        (acc.1 ++ [(node_id, indicatorSources nd)], _)
        (fun e2 he2 inp hi => hres e2 (by simp [he2]) inp hi) hnodup1.2 hdisj2
      refine ⟨rev, ?_⟩
      simp only [List.foldlM, hstep, bind, Except.bind]
      rw [hrev]
      simp

theorem buildAdjacency_ok (nodes : List (String × NodeDef))
    (hres : ∀ e ∈ nodes, ∀ inp ∈ e.2.inputs, inp.type = InputType.indicator →
      (alookup nodes inp.source).isSome = true)
    (hnodup : (nodes.map Prod.fst).Nodup) :
    ∃ rev, buildAdjacency nodes =
      .ok (nodes.map (fun e => (e.1, indicatorSources e.2)), rev) := by
  obtain ⟨rev, hrev⟩ := buildAdjacency_go nodes nodes ([], []) hres hnodup (by simp)
  exact ⟨rev, by simpa [buildAdjacency] using hrev⟩

theorem adjEdge_iff_dependsOn (nodes : List (String × NodeDef))
    (adjacency : List (String × List String))
    (hadj : adjacency = nodes.map (fun e => (e.1, indicatorSources e.2))) :
    ∀ u v, adjEdge adjacency u v ↔ dependsOn nodes u v := by
  intro u v
  unfold adjEdge depsGetD dependsOn
  rw [hadj, alookup_map_value]
  cases h : alookup nodes u with
  | none => simp
  | some nd =>
      simp [indicatorSources]
      constructor
      · rintro ⟨inp, ⟨hmem, htype⟩, hsrc⟩
        exact ⟨inp, hmem, htype, hsrc⟩
      · rintro ⟨inp, hmem, htype, hsrc⟩
        exact ⟨inp, ⟨hmem, htype⟩, hsrc⟩

end Dag

namespace Dag

/-- One step of the dependency loop inside `dfs` (abbreviation used only in
the proofs below; `dfs` itself is the faithful translation). -/
theorem dfs_list_master (adjacency : List (String × List String)) (fuel : Nat)
    (IH : ∀ (node : String) (visited recStack f : List String),
      ((adjacency.map Prod.fst).filter (fun k => k ∉ visited)).length < fuel →
      node ∉ visited →
      node ∈ adjacency.map Prod.fst →
      (∀ u v, adjEdge adjacency u v → v ∈ adjacency.map Prod.fst) →
      (∀ x, x ∈ visited ↔ x ∈ recStack ∨ x ∈ f) →
      GoodOrder adjacency f → f.Nodup → (∀ x ∈ f, x ∉ recStack) →
      isChain (adjEdge adjacency) (recStack ++ [node]) →
      (∃ visited₂ Δ, dfs adjacency fuel node recStack visited recStack = .ok visited₂ ∧
        (∀ x, x ∈ visited₂ ↔ x ∈ recStack ∨ x ∈ f ++ Δ) ∧
        GoodOrder adjacency (f ++ Δ) ∧ (f ++ Δ).Nodup ∧
        (∀ x ∈ f ++ Δ, x ∉ recStack) ∧ node ∈ f ++ Δ ∧
        (∀ x ∈ visited, x ∈ visited₂))
      ∨ (∃ msg, dfs adjacency fuel node recStack visited recStack = .error msg ∧
          cycleError adjacency msg)) :
    ∀ (ds : List String) (nd : String) (visited recStack2 f : List String),
      ((adjacency.map Prod.fst).filter (fun k => k ∉ visited)).length < fuel →
      (∀ d ∈ ds, adjEdge adjacency nd d) →
      recStack2.getLast? = some nd →
      (∀ u v, adjEdge adjacency u v → v ∈ adjacency.map Prod.fst) →
      (∀ x, x ∈ visited ↔ x ∈ recStack2 ∨ x ∈ f) →
      GoodOrder adjacency f → f.Nodup → (∀ x ∈ f, x ∉ recStack2) →
      isChain (adjEdge adjacency) recStack2 →
      (∃ visited₂ Δ,
        ds.foldlM (fun visited dep =>
          if dep ∉ visited then
            dfs adjacency fuel dep recStack2 visited recStack2
          else if dep ∈ recStack2 then
            .error ("Cycle detected in DAG: " ++ String.intercalate " -> "
              (recStack2.drop (recStack2.indexOf dep) ++ [dep]))
          else .ok visited) visited = .ok visited₂ ∧
        (∀ x, x ∈ visited₂ ↔ x ∈ recStack2 ∨ x ∈ f ++ Δ) ∧
        GoodOrder adjacency (f ++ Δ) ∧ (f ++ Δ).Nodup ∧
        (∀ x ∈ f ++ Δ, x ∉ recStack2) ∧
        (∀ d ∈ ds, d ∈ f ++ Δ) ∧ (∀ x ∈ visited, x ∈ visited₂))
      ∨ (∃ msg,
        ds.foldlM (fun visited dep =>
          if dep ∉ visited then
            dfs adjacency fuel dep recStack2 visited recStack2
          else if dep ∈ recStack2 then
            .error ("Cycle detected in DAG: " ++ String.intercalate " -> "
              (recStack2.drop (recStack2.indexOf dep) ++ [dep]))
          else .ok visited) visited = .error msg ∧ cycleError adjacency msg)
  | [], nd, visited, recStack2, f, _, _, _, _, H2, HG, HN, HD, _ =>
      Or.inl ⟨visited, [], by simp [List.foldlM, pure, Except.pure], by simpa using H2,
        by simpa using HG, by simpa using HN, by simpa using HD, by simp,
        fun x hx => hx⟩
  | d :: rest, nd, visited, recStack2, f, Hfuel, Hds, Hlast, Hcl, H2, HG, HN, HD, Hch => by
      by_cases hdv : d ∈ visited
      · by_cases hdr : d ∈ recStack2
        · -- gray hit: error with the reported cycle
          right
          refine ⟨"Cycle detected in DAG: " ++ String.intercalate " -> "
            (recStack2.drop (recStack2.indexOf d) ++ [d]), ?_, ?_⟩
          · simp only [List.foldlM, hdv, hdr]
            simp [bind, Except.bind]
          · obtain ⟨tail, htail⟩ := drop_indexOf_cons recStack2 d hdr
            have hidx : recStack2.indexOf d < recStack2.length :=
              List.indexOf_lt_length.mpr hdr
            refine ⟨recStack2.drop (recStack2.indexOf d) ++ [d], ⟨?_, ?_, ?_⟩, rfl⟩
            · rw [htail]; simp
            · apply isChain_append_singleton _ _ (isChain_drop _ _ _ Hch)
              intro a ha
              rw [getLast?_drop_of_lt _ _ hidx, Hlast] at ha
              cases ha
              exact Hds d (by simp)
            · have hc : d :: tail ++ [d] = (d :: tail) ++ [d] := by simp
              rw [htail, hc, List.getLast?_concat]
              simp
        · -- already finished: skip
          have hdf : d ∈ f := by
            rcases (H2 d).mp hdv with h | h
            · exact absurd h hdr
            · exact h
          have hres := dfs_list_master adjacency fuel IH rest nd visited recStack2 f
            Hfuel (fun x hx => Hds x (by simp [hx])) Hlast Hcl H2 HG HN HD Hch
          rcases hres with ⟨visited₂, Δ, hok, hprops⟩ | ⟨msg, herr, hcyc⟩
          · left
            refine ⟨visited₂, Δ, ?_, hprops.1, hprops.2.1, hprops.2.2.1, hprops.2.2.2.1,
              ?_, hprops.2.2.2.2.2⟩
            · simp only [List.foldlM, hdv, hdr]
              simpa [bind, Except.bind] using hok
            · intro x hx
              rcases List.mem_cons.mp hx with h | h
              · subst h; exact by simp [hdf]
              · exact hprops.2.2.2.2.1 x h
          · right
            refine ⟨msg, ?_, hcyc⟩
            simp only [List.foldlM, hdv, hdr]
            simpa [bind, Except.bind] using herr
      · -- unvisited: recurse
        have hchain : isChain (adjEdge adjacency) (recStack2 ++ [d]) := by
          apply isChain_append_singleton _ _ Hch
          intro a ha
          rw [Hlast] at ha
          cases ha
          exact Hds d (by simp)
        have hstep := IH d visited recStack2 f Hfuel hdv
          (Hcl nd d (Hds d (by simp))) Hcl H2 HG HN HD hchain
        rcases hstep with ⟨visited₁, Δ₁, hok1, H2₁, HG₁, HN₁, HD₁, hdin, hmono1⟩ |
          ⟨msg, herr, hcyc⟩
        · have Hfuel1 : ((adjacency.map Prod.fst).filter
              (fun k => k ∉ visited₁)).length < fuel :=
            lt_of_le_of_lt (filter_not_mem_mono _ _ _ hmono1) Hfuel
          have hres := dfs_list_master adjacency fuel IH rest nd visited₁ recStack2
            (f ++ Δ₁) Hfuel1 (fun x hx => Hds x (by simp [hx])) Hlast Hcl H2₁ HG₁ HN₁
            HD₁ Hch
          rcases hres with ⟨visited₂, Δ₂, hok2, H2₂, HG₂, HN₂, HD₂, hrest, hmono2⟩ |
            ⟨msg, herr, hcyc⟩
          · left
            refine ⟨visited₂, Δ₁ ++ Δ₂, ?_, ?_, ?_, ?_, ?_, ?_, ?_⟩
            · simp only [List.foldlM, hdv]
              simp only [bind, Except.bind, hok1]
              simpa [← List.append_assoc] using hok2
            · intro x
              rw [H2₂ x, ← List.append_assoc]
            · rw [← List.append_assoc]; exact HG₂
            · rw [← List.append_assoc]; exact HN₂
            · rw [← List.append_assoc]; exact HD₂
            · intro x hx
              rcases List.mem_cons.mp hx with h | h
              · subst h
                rw [← List.append_assoc]
                exact List.mem_append_left _ hdin
              · rw [← List.append_assoc]
                exact hrest x h
            · exact fun x hx => hmono2 x (hmono1 x hx)
          · right
            refine ⟨msg, ?_, hcyc⟩
            simp only [List.foldlM, hdv]
            simp only [bind, Except.bind, hok1]
            simpa using herr
        · right
          refine ⟨msg, ?_, hcyc⟩
          simp only [List.foldlM, hdv]
          simp only [bind, Except.bind]
          rw [herr]
          simp

end Dag

theorem nodup_append_singleton {α : Type} (l : List α) (x : α)
    (h : l.Nodup) (hx : x ∉ l) : (l ++ [x]).Nodup := by
  refine List.Nodup.append h (by simp) ?_
  intro a ha hax
  simp at hax
  subst hax
  exact hx ha

namespace Dag

theorem goodOrder_append_node (adjacency : List (String × List String))
    (f2 : List String) (node : String) (hg : GoodOrder adjacency f2)
    (hnn : node ∉ f2) (hdeps : ∀ v ∈ depsGetD adjacency node, v ∈ f2) :
    GoodOrder adjacency (f2 ++ [node]) := by
  intro u hu v hv
  rcases List.mem_append.mp hu with hu2 | hu2
  · obtain ⟨hvf, hidx⟩ := hg u hu2 v hv
    refine ⟨List.mem_append_left _ hvf, ?_⟩
    rw [List.indexOf_append_of_mem hvf, List.indexOf_append_of_mem hu2]
    exact hidx
  · simp at hu2
    subst hu2
    have hvf := hdeps v hv
    refine ⟨List.mem_append_left _ hvf, ?_⟩
    rw [List.indexOf_append_of_mem hvf, List.indexOf_append_of_not_mem hnn]
    simp
    exact lt_of_lt_of_le (List.indexOf_lt_length.mpr hvf) (by simp)

/-- The master property of the faithful `dfs`: given consistent visited /
recursion-stack / finish-order state and enough fuel, the traversal either
succeeds, extending the finish order so that dependencies keep finishing
strictly before their dependents, or raises the cycle message for a genuine
cycle of the adjacency. -/
theorem dfs_master (adjacency : List (String × List String)) :
    ∀ (fuel : Nat) (node : String) (visited recStack f : List String),
      ((adjacency.map Prod.fst).filter (fun k => k ∉ visited)).length < fuel →
      node ∉ visited →
      node ∈ adjacency.map Prod.fst →
      (∀ u v, adjEdge adjacency u v → v ∈ adjacency.map Prod.fst) →
      (∀ x, x ∈ visited ↔ x ∈ recStack ∨ x ∈ f) →
      GoodOrder adjacency f → f.Nodup → (∀ x ∈ f, x ∉ recStack) →
      isChain (adjEdge adjacency) (recStack ++ [node]) →
      (∃ visited₂ Δ, dfs adjacency fuel node recStack visited recStack = .ok visited₂ ∧
        (∀ x, x ∈ visited₂ ↔ x ∈ recStack ∨ x ∈ f ++ Δ) ∧
        GoodOrder adjacency (f ++ Δ) ∧ (f ++ Δ).Nodup ∧
        (∀ x ∈ f ++ Δ, x ∉ recStack) ∧ node ∈ f ++ Δ ∧
        (∀ x ∈ visited, x ∈ visited₂))
      ∨ (∃ msg, dfs adjacency fuel node recStack visited recStack = .error msg ∧
          cycleError adjacency msg)
  | 0, node, visited, recStack, f, Hfuel, _, _, _, _, _, _, _, _ =>
      absurd Hfuel (by simp)
  | fuel + 1, node, visited, recStack, f, Hfuel, Hnv, Hnk, Hcl, H2, HG, HN, HD, Hch => by
      have hnf : node ∉ f := fun hh => Hnv ((H2 node).mpr (Or.inr hh))
      have hnr : node ∉ recStack := fun hh => Hnv ((H2 node).mpr (Or.inl hh))
      have Hfuel2 : ((adjacency.map Prod.fst).filter
          (fun k => k ∉ visited ++ [node])).length < fuel :=
        lt_of_lt_of_le (filter_not_mem_append_lt _ _ _ Hnk Hnv)
          (Nat.lt_succ_iff.mp Hfuel)
      have H2' : ∀ x, x ∈ visited ++ [node] ↔ x ∈ recStack ++ [node] ∨ x ∈ f := by
        intro x
        simp only [List.mem_append, List.mem_singleton, H2 x]
        tauto
      have HD' : ∀ x ∈ f, x ∉ recStack ++ [node] := by
        intro x hx
        simp only [List.mem_append, List.mem_singleton]
        push_neg
        exact ⟨HD x hx, fun hh => (hnf (hh ▸ hx)).elim⟩
      have Hlast : (recStack ++ [node]).getLast? = some node := by simp
      have Hds : ∀ d ∈ depsGetD adjacency node, adjEdge adjacency node d :=
        fun d hd => hd
      have hlist := dfs_list_master adjacency fuel (dfs_master adjacency fuel)
        (depsGetD adjacency node) node (visited ++ [node]) (recStack ++ [node]) f
        Hfuel2 Hds Hlast Hcl H2' HG HN HD' Hch
      rcases hlist with ⟨visited₂, Δ, hok, H2₂, HG₂, HN₂, HD₂, hds, hmono⟩ |
        ⟨msg, herr, hcyc⟩
      · left
        have hnfd : node ∉ f ++ Δ := fun hh => HD₂ node hh (by simp)
        refine ⟨visited₂, Δ ++ [node], ?_, ?_, ?_, ?_, ?_, ?_, ?_⟩
        · simpa [dfs, Hnv] using hok
        · intro x
          rw [H2₂ x]
          simp only [List.mem_append, List.mem_singleton]
          tauto
        · rw [← List.append_assoc]
          exact goodOrder_append_node _ _ _ HG₂ hnfd hds
        · rw [← List.append_assoc]
          exact nodup_append_singleton _ _ HN₂ hnfd
        · intro x hx
          rw [← List.append_assoc] at hx
          rcases List.mem_append.mp hx with h | h
          · intro hh
            exact HD₂ x h (List.mem_append_left _ hh)
          · simp at h
            subst h
            exact hnr
        · rw [← List.append_assoc]
          simp
        · exact fun x hx => hmono x (List.mem_append_left _ hx)
      · right
        refine ⟨msg, ?_, hcyc⟩
        simpa [dfs, Hnv] using herr

end Dag

theorem alookup_mem {κ α : Type} [DecidableEq κ]
    (l : List (κ × α)) (k : κ) (v : α) (h : alookup l k = some v) : (k, v) ∈ l := by
  induction l with
  | nil => simp [alookup] at h
  | cons hd tl ih =>
      by_cases hk : hd.1 = k
      · simp [alookup, hk] at h
        have hhd : hd = (k, v) := Prod.ext_iff.mpr ⟨hk, h⟩
        rw [← hhd]
        simp
      · simp [alookup, hk] at h
        right
        exact ih h

namespace Dag

theorem isChain_congr (G H : String → String → Prop)
    (hgh : ∀ u v, G u v ↔ H u v) : ∀ l, isChain G l → isChain H l
  | [], h => trivial
  | [_], h => trivial
  | a :: b :: rest, h =>
      ⟨(hgh a b).mp h.1, isChain_congr G H hgh (b :: rest) h.2⟩

theorem validate_go (adjacency : List (String × List String)) (N1 : Nat)
    (hN : adjacency.length < N1)
    (Hcl : ∀ u v, adjEdge adjacency u v → v ∈ adjacency.map Prod.fst) :
    ∀ (es : List (String × NodeDef)) (visited f : List String),
      (∀ e ∈ es, e.1 ∈ adjacency.map Prod.fst) →
      (∀ x, x ∈ visited ↔ x ∈ f) → GoodOrder adjacency f → f.Nodup →
      (∃ visited₂ f₂,
        es.foldlM (fun visited entry =>
          if entry.1 ∉ visited then dfs adjacency N1 entry.1 [] visited []
          else .ok visited) visited = .ok visited₂ ∧
        (∀ x, x ∈ visited₂ ↔ x ∈ f₂) ∧ GoodOrder adjacency f₂ ∧
        (∀ e ∈ es, e.1 ∈ visited₂) ∧ (∀ x ∈ visited, x ∈ visited₂))
      ∨ (∃ msg,
        es.foldlM (fun visited entry =>
          if entry.1 ∉ visited then dfs adjacency N1 entry.1 [] visited []
          else .ok visited) visited = .error msg ∧ cycleError adjacency msg)
  | [], visited, f, _, H2, HG, HN =>
      Or.inl ⟨visited, f, by simp [List.foldlM, pure, Except.pure], H2, HG,
        by simp, fun x hx => hx⟩
  | e :: es, visited, f, Hkeys, H2, HG, HN => by
      have Hfuel : ((adjacency.map Prod.fst).filter
          (fun k => k ∉ visited)).length < N1 :=
        lt_of_le_of_lt (le_trans (List.length_filter_le _ _) (by simp)) hN
      by_cases hev : e.1 ∈ visited
      · have hres := validate_go adjacency N1 hN Hcl es visited f
          (fun x hx => Hkeys x (by simp [hx])) H2 HG HN
        rcases hres with ⟨visited₂, f₂, hok, H2₂, HG₂, hmem, hmono⟩ | ⟨msg, herr, hcyc⟩
        · left
          refine ⟨visited₂, f₂, ?_, H2₂, HG₂, ?_, hmono⟩
          · simp only [List.foldlM, hev]
            simpa [bind, Except.bind] using hok
          · intro e2 he2
            rcases List.mem_cons.mp he2 with h | h
            · subst h; exact hmono _ hev
            · exact hmem e2 h
        · right
          refine ⟨msg, ?_, hcyc⟩
          simp only [List.foldlM, hev]
          simpa [bind, Except.bind] using herr
      · have hstep := dfs_master adjacency N1 e.1 visited [] f Hfuel hev
          (Hkeys e (by simp)) Hcl (by intro x; rw [H2 x]; simp) HG HN (by simp)
          (by simp [isChain])
        rcases hstep with ⟨visited₁, Δ, hok1, H2₁, HG₁, HN₁, _, hein, hmono1⟩ |
          ⟨msg, herr, hcyc⟩
        · have hres := validate_go adjacency N1 hN Hcl es visited₁ (f ++ Δ)
            (fun x hx => Hkeys x (by simp [hx]))
            (by intro x; rw [H2₁ x]; simp) HG₁ HN₁
          rcases hres with ⟨visited₂, f₂, hok2, H2₂, HG₂, hmem, hmono2⟩ |
            ⟨msg, herr, hcyc⟩
          · left
            refine ⟨visited₂, f₂, ?_, H2₂, HG₂, ?_, ?_⟩
            · simp only [List.foldlM, hev]
              simp only [bind, Except.bind, hok1]
              simpa using hok2
            · intro e2 he2
              rcases List.mem_cons.mp he2 with h | h
              · subst h
                exact hmono2 _ ((H2₁ e2.1).mpr (by simp [hein]))
              · exact hmem e2 h
            · exact fun x hx => hmono2 x (hmono1 x hx)
          · right
            refine ⟨msg, ?_, hcyc⟩
            simp only [List.foldlM, hev]
            simp only [bind, Except.bind, hok1]
            simpa using herr
        · right
          refine ⟨msg, ?_, hcyc⟩
          simp only [List.foldlM, hev]
          simp only [bind, Except.bind]
          rw [herr]
          simp

end Dag

namespace Dag

theorem validateNoCycles_of_cycle (nodes : List (String × NodeDef))
    (adjacency : List (String × List String))
    (hN : adjacency.length < nodes.length + 1)
    (Hcl : ∀ u v, adjEdge adjacency u v → v ∈ adjacency.map Prod.fst)
    (HkeysIn : ∀ e ∈ nodes, e.1 ∈ adjacency.map Prod.fst)
    (HkeysBack : ∀ k ∈ adjacency.map Prod.fst, ∃ e ∈ nodes, e.1 = k)
    (c : List String) (hcyc : isCycleList (adjEdge adjacency) c) :
    ∃ msg, validateNoCycles nodes adjacency = .error msg ∧
      cycleError adjacency msg := by
  have hgo := validate_go adjacency (nodes.length + 1) hN Hcl nodes [] []
    HkeysIn (by simp) (by intro u hu; simp at hu) (by simp)
  rcases hgo with ⟨visited₂, f₂, hok, H2₂, HG₂, hmem, _⟩ | ⟨msg, herr, hcycErr⟩
  · exfalso
    refine goodOrder_no_cycle adjacency f₂ HG₂ ?_ c hcyc
    intro k hk
    obtain ⟨e, he, hek⟩ := HkeysBack k hk
    exact (H2₂ k).mp (hek ▸ hmem e he)
  · refine ⟨msg, ?_, hcycErr⟩
    unfold validateNoCycles
    simp only [bind, Except.bind]
    rw [herr]

/-- C6: any list of node definitions whose induced INDICATOR-dependency
graph has a cycle (and whose INDICATOR sources all resolve, so that the
adjacency construction itself does not fail first) is rejected by
`DAGBuilder.build`, and the raised message is the full cycle path
`a -> b -> ... -> a` of an actual cycle — it names every node on that
cycle. -/
theorem C6_cycle_rejected_with_path (node_defs : List NodeDef)
    (hresolve : ∀ nd ∈ node_defs, ∀ inp ∈ nd.inputs,
      inp.type = InputType.indicator →
      (alookup (mkNodes node_defs) inp.source).isSome = true)
    (l : List String)
    (hcyc : isCycleList (dependsOn (mkNodes node_defs)) l) :
    ∃ msg c, build node_defs = .error msg ∧
      isCycleList (dependsOn (mkNodes node_defs)) c ∧
      msg = "Cycle detected in DAG: " ++ String.intercalate " -> " c := by
  set nodes := mkNodes node_defs with hnodes
  have hnodup := mkNodes_keys_nodup node_defs
  have hres : ∀ e ∈ nodes, ∀ inp ∈ e.2.inputs, inp.type = InputType.indicator →
      (alookup nodes inp.source).isSome = true := by
    intro e he inp hinp htype
    exact hresolve e.2 (mkNodes_entry node_defs e he).1 inp hinp htype
  obtain ⟨rev, hba⟩ := buildAdjacency_ok nodes hres hnodup
  set adjacency := nodes.map (fun e => (e.1, indicatorSources e.2)) with hadj
  have hiff := adjEdge_iff_dependsOn nodes adjacency hadj
  have hkeysEq : adjacency.map Prod.fst = nodes.map Prod.fst := by
    rw [hadj]
    simp
  have Hcl : ∀ u v, adjEdge adjacency u v → v ∈ adjacency.map Prod.fst := by
    intro u v he
    have hdep := (hiff u v).mp he
    obtain ⟨nd, hnd, inp, hinp, htype, hsrc⟩ := hdep
    have hmem := alookup_mem nodes u nd hnd
    have hsome := hres (u, nd) hmem inp hinp htype
    rw [hsrc] at hsome
    rw [hkeysEq]
    cases halook : alookup nodes v with
    | none => rw [halook] at hsome; simp at hsome
    | some nd2 => exact alookup_isSome_mem _ _ _ halook
  have HkeysIn : ∀ e ∈ nodes, e.1 ∈ adjacency.map Prod.fst := by
    intro e he
    rw [hkeysEq]
    exact List.mem_map_of_mem Prod.fst he
  have HkeysBack : ∀ k ∈ adjacency.map Prod.fst, ∃ e ∈ nodes, e.1 = k := by
    intro k hk
    rw [hkeysEq] at hk
    obtain ⟨e, he, hek⟩ := List.mem_map.mp hk
    exact ⟨e, he, hek⟩
  have hN : adjacency.length < nodes.length + 1 := by
    rw [hadj]
    simp
  have hccE : isCycleList (adjEdge adjacency) l :=
    ⟨hcyc.1, isChain_congr _ _ (fun u v => (hiff u v).symm) l hcyc.2.1, hcyc.2.2⟩
  obtain ⟨msg, hverr, c, hc, hmsg⟩ :=
    (by
      obtain ⟨msg, hverr, hcycErr⟩ := validateNoCycles_of_cycle nodes adjacency hN Hcl
        HkeysIn HkeysBack l hccE
      obtain ⟨c, hc, hmsg⟩ := hcycErr
      exact ⟨msg, hverr, c, hc, hmsg⟩ :
      ∃ msg, validateNoCycles nodes adjacency = .error msg ∧
        ∃ c, isCycleList (adjEdge adjacency) c ∧
          msg = "Cycle detected in DAG: " ++ String.intercalate " -> " c)
  refine ⟨msg, c, ?_, ?_, hmsg⟩
  · show build node_defs = .error msg
    unfold build
    dsimp only
    rw [← hnodes, hba]
    simp only [bind, Except.bind]
    rw [hverr]
  · exact ⟨hc.1, isChain_congr _ _ hiff c hc.2.1, hc.2.2⟩

end Dag

namespace Dag

/-- Witness for C6 at spec seed test 4 (`a` ↔ `b`): the hypotheses hold at
the concrete input, the builder rejects, and the concrete message is the
full path `a -> b -> a`. -/
theorem C6_cycle_rejected_with_path_witness :
    build c6Defs = .error "Cycle detected in DAG: a -> b -> a" ∧
    (∃ msg c, build c6Defs = .error msg ∧
      isCycleList (dependsOn (mkNodes c6Defs)) c ∧
      msg = "Cycle detected in DAG: " ++ String.intercalate " -> " c) :=
  ⟨rfl,
   C6_cycle_rejected_with_path c6Defs (by decide) ["a", "b", "a"]
     ⟨by decide,
      ⟨⟨{ id := "a", type := "EMA",
          inputs := [{ type := .indicator, source := "b" }], outputs := ["value"] },
        rfl, { type := .indicator, source := "b" }, by simp, rfl, rfl⟩,
       ⟨{ id := "b", type := "EMA",
          inputs := [{ type := .indicator, source := "a" }], outputs := ["value"] },
        rfl, { type := .indicator, source := "a" }, by simp, rfl, rfl⟩,
       trivial⟩,
      rfl⟩⟩

end Dag
namespace EngineConfig

open Dag

theorem convert_inputs_ok (ind_id : String) :
    ∀ (ds : List PyVal) (acc : List InputRef),
      (∀ d ∈ ds, ∃ r, inputRefOfDict ind_id d = .ok r) →
      ∃ rs, ds.foldlM (fun acc d => do
        let r ← inputRefOfDict ind_id d
        Except.ok (acc ++ [r])) acc = .ok rs
  | [], acc, _ => ⟨acc, by simp [List.foldlM, pure, Except.pure]⟩
  | d :: ds, acc, hwf => by
      obtain ⟨r, hr⟩ := hwf d (by simp)
      obtain ⟨rs, hrs⟩ := convert_inputs_ok ind_id ds (acc ++ [r])
        (fun d2 hd2 => hwf d2 (by simp [hd2]))
      refine ⟨rs, ?_⟩
      simp only [List.foldlM, bind, Except.bind, hr]
      exact hrs

/-- C7: merging pipeline configurations de-duplicates two indicator entries
with the same id into exactly one NodeDef iff they are structurally
identical (same type, same params, same inputs under Python equality); any
difference among those three raises the conflict error, and two strategy
entries with the same id always raise the duplicate error. -/
theorem C7_merge_dedup_iff_identical
    (sym1 sym2 : String) (i1 i2 : IndicatorConfig) (s1 s2 : StrategyConfig)
    (hid : i1.id = i2.id) (hsid : s1.id = s2.id)
    (hwf : ∀ d ∈ i1.inputs, ∃ r, inputRefOfDict i1.id d = .ok r) :
    (structurallyIdentical i1 i2 = true →
      ∃ nd, mergeConfigs [{ symbol := sym1, indicators := [i1] },
                          { symbol := sym2, indicators := [i2] }] = .ok [nd] ∧
        nd.id = i1.id)
    ∧ (structurallyIdentical i1 i2 = false →
      mergeConfigs [{ symbol := sym1, indicators := [i1] },
                    { symbol := sym2, indicators := [i2] }] =
        .error ("Conflicting definitions for indicator: " ++ i2.id))
    ∧ mergeConfigs [{ symbol := sym1, strategies := [s1] },
                    { symbol := sym2, strategies := [s2] }] =
        .error ("Duplicate strategy id: " ++ s2.id) := by
  refine ⟨?_, ?_, ?_⟩
  · intro hsi
    have hmaps : mergeMaps [{ symbol := sym1, indicators := [i1] },
        { symbol := sym2, indicators := [i2] }] = .ok ([(i1.id, i1)], []) := by
      simp [mergeMaps, List.foldlM, alookup, ainsert, bind, Except.bind, pure,
        Except.pure, hid, hsi]
    obtain ⟨r, hr⟩ := convert_inputs_ok i1.id i1.inputs [] hwf
    have hconv : convertIndicator i1 =
        .ok { id := i1.id, type := i1.type, inputs := r, params := i1.params,
              outputs := ["value"] } := by
      simp only [convertIndicator, bind, Except.bind]
      simp only [bind, Except.bind] at hr
      rw [hr]
    refine ⟨{ id := i1.id, type := i1.type, inputs := r, params := i1.params,
              outputs := ["value"] }, ?_, rfl⟩
    simp [mergeConfigs, hmaps, List.foldlM, hconv, bind, Except.bind, pure, Except.pure]
  · intro hsi
    have hmaps : mergeMaps [{ symbol := sym1, indicators := [i1] },
        { symbol := sym2, indicators := [i2] }] =
        .error ("Conflicting definitions for indicator: " ++ i2.id) := by
      simp [mergeMaps, List.foldlM, alookup, ainsert, bind, Except.bind, pure,
        Except.pure, hid, hsi]
    simp [mergeConfigs, hmaps, bind, Except.bind]
  · have hmaps : mergeMaps [{ symbol := sym1, strategies := [s1] },
        { symbol := sym2, strategies := [s2] }] =
        .error ("Duplicate strategy id: " ++ s2.id) := by
      simp [mergeMaps, List.foldlM, alookup, ainsert, bind, Except.bind, pure,
        Except.pure, hsid]
    simp [mergeConfigs, hmaps, bind, Except.bind]

end EngineConfig

namespace EngineConfig

/-- Witness for C7 at concrete configs: identical `ema_20` declarations in
two files, and two strategies sharing the id `breakout`. -/
theorem C7_merge_dedup_iff_identical_witness :
    (structurallyIdentical c7i1 c7i2 = true →
      ∃ nd, mergeConfigs [{ symbol := "ES", indicators := [c7i1] },
                          { symbol := "ES", indicators := [c7i2] }] = .ok [nd] ∧
        nd.id = c7i1.id)
    ∧ (structurallyIdentical c7i1 c7i2 = false →
      mergeConfigs [{ symbol := "ES", indicators := [c7i1] },
                    { symbol := "ES", indicators := [c7i2] }] =
        .error ("Conflicting definitions for indicator: " ++ c7i2.id))
    ∧ mergeConfigs [{ symbol := "ES", strategies := [c7s1] },
                    { symbol := "ES", strategies := [c7s2] }] =
        .error ("Duplicate strategy id: " ++ c7s2.id) :=
  C7_merge_dedup_iff_identical "ES" "ES" c7i1 c7i2 c7s1 c7s2 rfl rfl
    (by
      intro d hd
      simp [c7i1] at hd
      subst hd
      exact ⟨{ type := .candle, source := "5m" }, rfl⟩)

end EngineConfig

namespace Scheduler

/-- C3: refuted by the code.  On the two-node pipeline `C1m` (1-minute
candle input) with dependent `C1m_der` (INDICATOR input `C1m`), a 1-minute
candle event impacts both nodes, yet the filtered execution order is
`[C1m_der, C1m]` (the reversed topological order produced by the builder —
see C1), so `C1m_der` executes BEFORE its impacted dependency `C1m` and
finds no output recorded for it: the echo node's recorded output (its
gathered inputs) is empty, while `C1m` later records `{"value": "x"}`. -/
theorem C3_dependency_executes_after_dependent :
    ∃ st, Dag.build c3Defs = .ok st
      ∧ alookup st.adjacency "C1m_der" = some ["C1m"]
      ∧ "C1m" ∈ getImpactedNodes st "candle" c3Event
      ∧ execOrder st "candle" c3Event = ["C1m_der", "C1m"]
      ∧ ∃ states2, executeEvent st c3Nodes c3States "candle" c3Event =
          .ok ([("C1m_der", []), ("C1m", [("value", .str "x")])], states2) :=
  ⟨_, rfl, rfl, by decide, rfl, _, rfl⟩

end Scheduler
namespace Scheduler

open Dag

/-- Every node an execution fold processes records an output, and earlier
recorded outputs stay recorded. -/
theorem run_records {σ : Type} (dag : DAGState) (nodes : List (String × RNode σ))
    (event_type : String) (event_data : List (String × PyVal)) :
    ∀ (l : List String) (acc : List (String × Output) × List (String × σ))
      (outs : List (String × Output)) (sts : List (String × σ)),
      l.foldlM (fun acc node_id =>
        executeNode dag nodes node_id event_type event_data acc) acc = .ok (outs, sts) →
      (∀ m ∈ l, (alookup outs m).isSome = true) ∧
      (∀ k, (alookup acc.1 k).isSome = true → (alookup outs k).isSome = true)
  | [], acc, outs, sts, h => by
      simp [List.foldlM, pure, Except.pure] at h
      constructor
      · simp
      · intro k hk
        rw [h] at hk
        exact hk
  | m0 :: l, acc, outs, sts, h => by
      simp only [List.foldlM, bind, Except.bind] at h
      cases hstep : executeNode dag nodes m0 event_type event_data acc with
      | error e => rw [hstep] at h; simp at h
      | ok acc1 =>
          rw [hstep] at h
          simp only at h
          have hrec := run_records dag nodes event_type event_data l acc1 outs sts h
          have hm0 : (alookup acc1.1 m0).isSome = true := by
            unfold executeNode at hstep
            cases h1 : alookup nodes m0 with
            | none => rw [h1] at hstep; simp [bind, Except.bind] at hstep
            | some node =>
                rw [h1] at hstep
                cases h2 : alookup dag.nodes m0 with
                | none => rw [h2] at hstep; simp [bind, Except.bind] at hstep
                | some ndef =>
                    rw [h2] at hstep
                    simp only [bind, Except.bind] at hstep
                    cases h3 : alookup acc.2 m0 with
                    | none =>
                        rw [h3] at hstep
                        simp at hstep
                        rw [← hstep]
                        simp [alookup_ainsert]
                    | some st =>
                        rw [h3] at hstep
                        simp only at hstep
                        cases h4 : node.compute
                            (gatherInputs ndef event_type event_data acc.1) st with
                        | ok res =>
                            rw [h4] at hstep
                            simp at hstep
                            rw [← hstep]
                            simp [alookup_ainsert]
                        | error e =>
                            rw [h4] at hstep
                            simp at hstep
                            rw [← hstep]
                            simp [alookup_ainsert]
          constructor
          · intro m hm
            rcases List.mem_cons.mp hm with h5 | h5
            · subst h5
              exact hrec.2 m hm0
            · exact hrec.1 m h5
          · intro k hk
            apply hrec.2
            -- outputs only grow under executeNode
            unfold executeNode at hstep
            cases h1 : alookup nodes m0 with
            | none => rw [h1] at hstep; simp [bind, Except.bind] at hstep
            | some node =>
                rw [h1] at hstep
                cases h2 : alookup dag.nodes m0 with
                | none => rw [h2] at hstep; simp [bind, Except.bind] at hstep
                | some ndef =>
                    rw [h2] at hstep
                    simp only [bind, Except.bind] at hstep
                    cases h3 : alookup acc.2 m0 with
                    | none =>
                        rw [h3] at hstep
                        simp at hstep
                        rw [← hstep]
                        by_cases hkm : m0 = k <;> simp [alookup_ainsert, hkm, hk]
                    | some st =>
                        rw [h3] at hstep
                        simp only at hstep
                        cases h4 : node.compute
                            (gatherInputs ndef event_type event_data acc.1) st with
                        | ok res =>
                            rw [h4] at hstep
                            simp at hstep
                            rw [← hstep]
                            by_cases hkm : m0 = k <;> simp [alookup_ainsert, hkm, hk]
                        | error e =>
                            rw [h4] at hstep
                            simp at hstep
                            rw [← hstep]
                            by_cases hkm : m0 = k <;> simp [alookup_ainsert, hkm, hk]

end Scheduler

namespace Scheduler

open Dag

/-- What a successful `executeNode` does to the accumulator: it records
some output for its node (and possibly updates that node's state). -/
theorem executeNode_shape {σ : Type} (dag : DAGState) (nodes : List (String × RNode σ))
    (node_id : String) (event_type : String) (event_data : List (String × PyVal))
    (acc acc1 : List (String × Output) × List (String × σ))
    (h : executeNode dag nodes node_id event_type event_data acc = .ok acc1) :
    ∃ out, acc1.1 = ainsert acc.1 node_id out ∧
      (acc1.2 = acc.2 ∨ ∃ st2, acc1.2 = ainsert acc.2 node_id st2) := by
  unfold executeNode at h
  cases h1 : alookup nodes node_id with
  | none => rw [h1] at h; simp [bind, Except.bind] at h
  | some node =>
      rw [h1] at h
      cases h2 : alookup dag.nodes node_id with
      | none => rw [h2] at h; simp [bind, Except.bind] at h
      | some ndef =>
          rw [h2] at h
          simp only [bind, Except.bind] at h
          cases h3 : alookup acc.2 node_id with
          | none =>
              rw [h3] at h
              simp at h
              exact ⟨[], by rw [← h], by left; rw [← h]⟩
          | some st =>
              rw [h3] at h
              simp only at h
              cases h4 : node.compute (gatherInputs ndef event_type event_data acc.1) st with
              | ok res =>
                  rw [h4] at h
                  simp at h
                  exact ⟨res.1, by rw [← h], by right; exact ⟨res.2, by rw [← h]⟩⟩
              | error e =>
                  rw [h4] at h
                  simp at h
                  exact ⟨[], by rw [← h], by left; rw [← h]⟩

/-- `executeNode` never propagates an exception when the node instance and
definition are present (state lookup and `compute` are inside the `try`). -/
theorem executeNode_ok_of_present {σ : Type} (dag : DAGState)
    (nodes : List (String × RNode σ)) (node_id : String) (event_type : String)
    (event_data : List (String × PyVal))
    (acc : List (String × Output) × List (String × σ))
    (hinst : (alookup nodes node_id).isSome = true)
    (hdef : (alookup dag.nodes node_id).isSome = true) :
    ∃ acc1, executeNode dag nodes node_id event_type event_data acc = .ok acc1 := by
  unfold executeNode
  cases h1 : alookup nodes node_id with
  | none => rw [h1] at hinst; simp at hinst
  | some node =>
      cases h2 : alookup dag.nodes node_id with
      | none => rw [h2] at hdef; simp at hdef
      | some ndef =>
          simp only [bind, Except.bind]
          cases h3 : alookup acc.2 node_id with
          | none => exact ⟨_, rfl⟩
          | some st =>
              dsimp only
              cases h4 : node.compute (gatherInputs ndef event_type event_data acc.1) st with
              | ok res => obtain ⟨o, s2⟩ := res; exact ⟨_, rfl⟩
              | error e => exact ⟨_, rfl⟩

/-- A fold over nodes whose instances and definitions are present never
propagates an exception. -/
theorem run_ok_of_present {σ : Type} (dag : DAGState) (nodes : List (String × RNode σ))
    (event_type : String) (event_data : List (String × PyVal)) :
    ∀ (l : List String) (acc : List (String × Output) × List (String × σ)),
      (∀ m ∈ l, (alookup nodes m).isSome = true ∧ (alookup dag.nodes m).isSome = true) →
      ∃ outs sts, l.foldlM (fun acc node_id =>
        executeNode dag nodes node_id event_type event_data acc) acc = .ok (outs, sts)
  | [], acc, _ => ⟨acc.1, acc.2, by simp [List.foldlM, pure, Except.pure]⟩
  | m0 :: l, acc, hp => by
      obtain ⟨acc1, hacc1⟩ := executeNode_ok_of_present dag nodes m0 event_type
        event_data acc (hp m0 (by simp)).1 (hp m0 (by simp)).2
      obtain ⟨outs, sts, hrest⟩ := run_ok_of_present dag nodes event_type event_data l
        acc1 (fun m hm => hp m (by simp [hm]))
      refine ⟨outs, sts, ?_⟩
      simp only [List.foldlM, bind, Except.bind, hacc1]
      exact hrest

/-- An output recorded as the empty dict for a node that does not run again
stays the empty dict. -/
theorem run_preserves_empty {σ : Type} (dag : DAGState) (nodes : List (String × RNode σ))
    (event_type : String) (event_data : List (String × PyVal)) (n : String) :
    ∀ (l : List String) (acc : List (String × Output) × List (String × σ))
      (outs : List (String × Output)) (sts : List (String × σ)),
      l.foldlM (fun acc node_id =>
        executeNode dag nodes node_id event_type event_data acc) acc = .ok (outs, sts) →
      (∀ m ∈ l, m ≠ n) → alookup acc.1 n = some [] → alookup outs n = some []
  | [], acc, outs, sts, h, _, hn => by
      simp [List.foldlM, pure, Except.pure] at h
      rw [h] at hn
      exact hn
  | m0 :: l, acc, outs, sts, h, hne, hn => by
      simp only [List.foldlM, bind, Except.bind] at h
      cases hstep : executeNode dag nodes m0 event_type event_data acc with
      | error e => rw [hstep] at h; simp at h
      | ok acc1 =>
          rw [hstep] at h
          simp only at h
          obtain ⟨out, hout, _⟩ := executeNode_shape dag nodes m0 event_type event_data
            acc acc1 hstep
          refine run_preserves_empty dag nodes event_type event_data n l acc1 outs sts h
            (fun m hm => hne m (by simp [hm])) ?_
          rw [hout, alookup_ainsert]
          have : ¬ m0 = n := hne m0 (by simp)
          simp [this, hn]

end Scheduler

namespace Scheduler

open Dag

/-- Looking up a key other than `src` ignores the erasure of `src`. -/
theorem alookup_filter_ne {α : Type} (l : List (String × α)) (src k : String)
    (hk : ¬ k = src) :
    alookup (l.filter (fun p => ¬ p.1 = src)) k = alookup l k := by
  induction l with
  | nil => simp [alookup]
  | cons hd tl ih =>
      obtain ⟨k2, v⟩ := hd
      simp only [decide_not] at ih
      by_cases h1 : k2 = src
      · have h2 : ¬ k2 = k := by rw [h1]; exact fun h => hk h.symm
        have h3 : ¬ src = k := fun h => hk h.symm
        simp [List.filter, h1, alookup, h2, h3, hk, ih]
      · by_cases h2 : k2 = k
        · simp [List.filter, h1, alookup, h2, hk]
        · simp [List.filter, h1, alookup, h2, hk, ih]

/-- Looking up `src` after erasing it yields nothing. -/
theorem alookup_filter_self {α : Type} (l : List (String × α)) (src : String) :
    alookup (l.filter (fun p => ¬ p.1 = src)) src = none := by
  induction l with
  | nil => simp [alookup]
  | cons hd tl ih =>
      obtain ⟨k2, v⟩ := hd
      simp only [decide_not] at ih
      by_cases h1 : k2 = src
      · simp [List.filter, h1, ih]
      · simp [List.filter, h1, alookup, ih]

/-- `_gather_inputs` cannot distinguish an upstream whose recorded output is
the empty dict from one with no recorded output at all: the empty-output
guard skips the input either way, so a downstream node sees a missing
input. -/
theorem gather_empty_eq_missing (node_def : NodeDef) (event_type : String)
    (event_data : List (String × PyVal)) (outs : List (String × Output))
    (n : String) (hn : alookup outs n = some []) :
    gatherInputs node_def event_type event_data outs =
    gatherInputs node_def event_type event_data
      (outs.filter (fun p => ¬ p.1 = n)) := by
  unfold gatherInputs
  apply List.foldl_ext
  intro acc inp _
  by_cases h1 : inp.type = InputType.tick ∧ event_type = "tick"
  · simp only [if_pos h1]
  · by_cases h2 : inp.type = InputType.candle ∧ event_type = "candle"
    · simp only [if_neg h1, if_pos h2]
    · by_cases h3 : inp.type = InputType.indicator
      · simp only [if_neg h1, if_neg h2, if_pos h3]
        by_cases hs : inp.source = n
        · rw [hs, hn, alookup_filter_self]
          simp [List.isEmpty]
        · rw [alookup_filter_ne outs n inp.source hs]
      · simp only [if_neg h1, if_neg h2, if_neg h3]

end Scheduler

namespace Scheduler

open Dag

/-- **C8.** If a node `n`'s `compute` raises during event dispatch, the
executor catches it and records `n`'s output as the empty dict `{}`; that
record survives to the end of the run, every remaining node of the
execution order still executes and records an output, and `_gather_inputs`
supplies downstream nodes no input key for `n` (an empty recorded output
gathers exactly like a missing one). -/
theorem C8_compute_error_isolated {σ : Type} (dag : DAGState)
    (nodes : List (String × RNode σ)) (states : List (String × σ))
    (event_type : String) (event_data : List (String × PyVal))
    (l₁ l₂ : List String) (n : String) (nodeN : RNode σ) (ndefN : NodeDef)
    (stN : σ) (e : String)
    (outs₁ : List (String × Output)) (sts₁ : List (String × σ))
    (hsplit : execOrder dag event_type event_data = l₁ ++ n :: l₂)
    (hrun1 : l₁.foldlM (fun acc node_id =>
        executeNode dag nodes node_id event_type event_data acc)
        (([], states) : List (String × Output) × List (String × σ)) =
        .ok (outs₁, sts₁))
    (hinst : alookup nodes n = some nodeN)
    (hdef : alookup dag.nodes n = some ndefN)
    (hst : alookup sts₁ n = some stN)
    (hfail : nodeN.compute (gatherInputs ndefN event_type event_data outs₁) stN =
        .error e)
    (hrem : ∀ m ∈ l₂, (alookup nodes m).isSome = true ∧
        (alookup dag.nodes m).isSome = true)
    (hnotn : n ∉ l₂) :
    ∃ outs sts₂,
      executeEvent dag nodes states event_type event_data = .ok (outs, sts₂) ∧
      alookup outs n = some [] ∧
      (∀ m ∈ l₂, (alookup outs m).isSome = true) ∧
      (∀ node_def outs2, alookup outs2 n = some [] →
        gatherInputs node_def event_type event_data outs2 =
        gatherInputs node_def event_type event_data
          (outs2.filter (fun p => ¬ p.1 = n))) := by
  have himp : ¬ getImpactedNodes dag event_type event_data = [] := by
    intro h0
    have h1 : execOrder dag event_type event_data = [] := by
      unfold execOrder
      rw [h0]
      simp
    rw [hsplit] at h1
    simp at h1
  have hstepn : executeNode dag nodes n event_type event_data (outs₁, sts₁) =
      .ok (ainsert outs₁ n [], sts₁) := by
    unfold executeNode
    rw [hinst, hdef]
    simp only [bind, Except.bind]
    rw [hst]
    dsimp only
    rw [hfail]
  obtain ⟨outs, sts₂, hrun2⟩ := run_ok_of_present dag nodes event_type event_data l₂
    (ainsert outs₁ n [], sts₁) hrem
  have hfold : (l₁ ++ n :: l₂).foldlM (fun acc node_id =>
      executeNode dag nodes node_id event_type event_data acc)
      (([], states) : List (String × Output) × List (String × σ)) =
      .ok (outs, sts₂) := by
    rw [List.foldlM_append]
    simp only [List.foldlM, bind, Except.bind, hrun1, hstepn]
    exact hrun2
  have hmain : executeEvent dag nodes states event_type event_data =
      .ok (outs, sts₂) := by
    simp only [executeEvent]
    rw [if_neg himp]
    have hsplit2 : dag.topo_order.filter
        (fun m => m ∈ getImpactedNodes dag event_type event_data) =
        l₁ ++ n :: l₂ := hsplit
    rw [hsplit2]
    exact hfold
  refine ⟨outs, sts₂, hmain, ?_, ?_, ?_⟩
  · exact run_preserves_empty dag nodes event_type event_data n l₂
      (ainsert outs₁ n [], sts₁) outs sts₂ hrun2
      (fun m hm hmn => hnotn (hmn ▸ hm))
      (by rw [alookup_ainsert]; simp)
  · exact (run_records dag nodes event_type event_data l₂
      (ainsert outs₁ n [], sts₁) outs sts₂ hrun2).1
  · exact fun node_def outs2 h2 =>
      gather_empty_eq_missing node_def event_type event_data outs2 n h2

/-- C8 witness: the two-node pipeline `bad → down` on a 1-minute candle
event. `bad` raises, is recorded as `{}`, `down` still runs and records an
output, and gathering sees no key for `bad`. -/
theorem C8_compute_error_isolated_witness :
    ∃ outs sts₂,
      executeEvent c8Dag c8Nodes c8States "candle" c8Event = .ok (outs, sts₂) ∧
      alookup outs "bad" = some [] ∧
      (∀ m ∈ ["down"], (alookup outs m).isSome = true) ∧
      (∀ node_def outs2, alookup outs2 "bad" = some [] →
        gatherInputs node_def "candle" c8Event outs2 =
        gatherInputs node_def "candle" c8Event
          (outs2.filter (fun p => ¬ p.1 = "bad"))) :=
  C8_compute_error_isolated c8Dag c8Nodes c8States "candle" c8Event
    [] ["down"] "bad" c8Bad c8BadDef () "boom" [] c8States
    (by decide) rfl rfl rfl rfl rfl
    (by decide) (by decide)

end Scheduler
